import Mathlib

/-!
# Verification of the "My List" service core

A shallow embedding of the list-read / list-write core of the OTT "My List"
backend (TypeScript/Express/MongoDB/Redis) together with proofs of the
specification claims about it.

Embedded components, with their source locations:

* `MyListService` (src/src/services/my-list-service.ts): `addToList`,
  `removeFromList`, `getList`, `getListWithOffsetPagination`,
  `getListWithCursorPagination`, `mapToListItemData`.
* `CacheService` (cache-service.ts): `getOffsetCacheKey`, `getCursorCacheKey`,
  `getUserCachePattern`, `get`, `set`, `invalidateUserCache`, `getCacheKey`.
* The MongoDB store is modelled as an explicit list of documents; the
  `my-list-item` schema's unique compound index on `(user_id, content_id)`
  and the uniqueness of `_id` are modelled as explicit hypotheses / step
  conditions where relevant.
* Redis is modelled as an association list of key/value pairs together with
  transport-failure flags; `SCAN`+`DEL` glob invalidation is modelled by a
  glob matcher over the pattern produced by `getUserCachePattern`.

Modelling conventions:

* Machine integers and JavaScript numbers that are always nonnegative
  integers in the code (page, limit, counts, millisecond timestamps) are
  `Nat`.
* Mongo `ObjectId`s are opaque totally ordered identifiers, modelled as
  `Nat`; `String(_id)` and the mongoose cast back from a cursor string are
  modelled by `Nat.repr` and a decimal parser.
* `Date` values are their millisecond timestamps (`Nat`).
* Fallible operations return `Except ApiErr`; `ApiErr` mirrors the
  `ApiError` hierarchy of middleware/error-handler.ts.
* The JSON (de)serialization that Redis applies to cached pages
  (`JSON.stringify`/`JSON.parse` in `CacheService.get`/`set`) is modelled as
  the identity on the cached value: the cache stores the page result itself.
-/

/-- `ContentType` (src/src/types/index.ts): `'movie' | 'tvshow'`. -/
inductive ContentType where
  | movie
  | tvshow
deriving DecidableEq, Repr

/-- `PaginationType` (src/src/types/index.ts): `'offset' | 'cursor'`. -/
inductive PaginationType where
  | offset
  | cursor
deriving DecidableEq, Repr

/-- A stored `MyListItem` document (src/src/models, `myListItemSchema`).
`entryId` models the Mongo `_id` (opaque, totally ordered, unique in the
collection); `added_at` is the `added_at : Date` in milliseconds; the
remaining fields are the denormalized content snapshot. -/
structure Entry where
  entryId : Nat
  user_id : String
  content_id : String
  content_type : ContentType
  added_at : Nat
  title : String
  description : String
  genres : List String
  release_date : Nat
  director : Option String
  actors : List String
deriving DecidableEq, Repr

/-- The errors of middleware/error-handler.ts that the embedded code can
produce: `NotFoundError` (404), `ConflictError` (409), `BadRequestError`
(400).  The `String` argument is the message constant. -/
inductive ApiErr where
  | notFound (msg : String)
  | conflict (msg : String)
  | badRequest (msg : String)
deriving DecidableEq, Repr

/-- The canonical sort key of an entry: `(added_at, _id)`.  Both pagination
modes sort by `added_at` descending with `_id` descending as tie-break. -/
def entryKey (e : Entry) : Nat × Nat := (e.added_at, e.entryId)

/-- Strict lexicographic order on `(added_at, _id)` pairs; `keyLt k c` is
exactly the cursor filter `added_at < c.added_at OR (added_at = c.added_at
AND _id < c.id)` built in `getListWithCursorPagination`. -/
def keyLt (k c : Nat × Nat) : Prop := k.1 < c.1 ∨ (k.1 = c.1 ∧ k.2 < c.2)

instance : DecidableRel keyLt := fun k c => by unfold keyLt; infer_instance

/-- `descGe a b` means `a` sorts no later than `b` under
`sort({ added_at: -1, _id: -1 })`: `b`'s key is lexicographically at most
`a`'s. -/
def descGe (a b : Entry) : Prop :=
  (entryKey b).1 < (entryKey a).1 ∨
    ((entryKey b).1 = (entryKey a).1 ∧ (entryKey b).2 ≤ (entryKey a).2)

instance : DecidableRel descGe := fun a b => by unfold descGe; infer_instance

instance : IsTotal Entry descGe := ⟨by intro a b; unfold descGe; omega⟩

instance : IsTrans Entry descGe := ⟨by intro a b c; unfold descGe; omega⟩

/-- The result of a Mongo query `find(...).sort({ added_at: -1, _id: -1 })`:
the matching documents in canonical order (`added_at` descending, `_id`
descending). -/
def sortDesc (l : List Entry) : List Entry := l.insertionSort descGe

/-- The documents of one user, in canonical order: the authoritative
sequence that both pagination modes page over. -/
def canonicalList (entries : List Entry) (userId : String) : List Entry :=
  sortDesc (entries.filter (fun e => e.user_id = userId))

namespace CacheService

/-- `CacheService.getOffsetCacheKey`:
`` `mylist:${userId}:offset:page:${page}:limit:${limit}` ``. -/
def getOffsetCacheKey (userId : String) (page limit : Nat) : String :=
  "mylist:" ++ userId ++ ":offset:page:" ++ Nat.repr page ++ ":limit:" ++ Nat.repr limit

/-- `CacheService.getCursorCacheKey`: `cursorPart = cursor || 'first'`, then
`` `mylist:${userId}:cursor:${cursorPart}:limit:${limit}` ``.  A `null`
cursor is `none`; the `||` also sends the empty string to `'first'`. -/
def getCursorCacheKey (userId : String) (cursor : Option String) (limit : Nat) : String :=
  let cursorPart :=
    match cursor with
    | some c => if c = "" then "first" else c
    | none => "first"
  "mylist:" ++ userId ++ ":cursor:" ++ cursorPart ++ ":limit:" ++ Nat.repr limit

/-- `CacheService.getUserCachePattern`: `` `mylist:${userId}:*` ``. -/
def getUserCachePattern (userId : String) : String :=
  "mylist:" ++ userId ++ ":*"

/-- The parameter record passed to `CacheService.getCacheKey` from
`MyListService.getList` (`{ page, cursor, limit }`). -/
structure KeyParams where
  page : Option Nat
  cursor : Option String
  limit : Nat
deriving DecidableEq, Repr

/-- `params.page || 1`: a missing page, and the JavaScript-falsy page `0`,
become `1`. -/
def pageOrOne : Option Nat → Nat
  | none => 1
  | some p => if p = 0 then 1 else p

/-- `params.cursor || null`: a missing or empty (falsy) cursor becomes
`null`. -/
def cursorOrNull : Option String → Option String
  | none => none
  | some c => if c = "" then none else some c

/-- `CacheService.getCacheKey`: dispatch on the pagination type. -/
def getCacheKey (userId : String) (type : PaginationType) (params : KeyParams) : String :=
  match type with
  | .offset => getOffsetCacheKey userId (pageOrOne params.page) params.limit
  | .cursor => getCursorCacheKey userId (cursorOrNull params.cursor) params.limit

end CacheService

/-- Redis `KEYS`/`SCAN` glob matching over characters, as used by
`invalidateUserCache` (`SCAN cursor MATCH pattern`): `*` matches any
(possibly empty) sequence, `?` matches one character, anything else matches
itself.  (Character classes `[...]` are not used by any pattern this
code base builds and are modelled as literal characters.) -/
def globMatch : List Char → List Char → Bool
  | [], [] => true
  | '*' :: p, s =>
    globMatch p s ||
      (match s with
       | [] => false
       | _ :: s' => globMatch ('*' :: p) s')
  | '?' :: p, _c :: s => globMatch p s
  | c :: p, d :: s => c = d && globMatch p s
  | _ :: _, [] => false
  | [], _ :: _ => false
termination_by p s => (s.length, p.length)

/-- String-level wrapper of `globMatch`. -/
def globMatchStr (pattern s : String) : Bool := globMatch pattern.data s.data

/-- The response shape of one list item (`ListItemData` in
my-list-service.ts), produced by `mapToListItemData`. -/
structure ListItemData where
  id : Nat
  contentId : String
  contentType : ContentType
  title : String
  description : String
  genres : List String
  releaseDate : Nat
  director : Option String
  actors : List String
  addedAt : Nat
deriving DecidableEq, Repr

/-- `OffsetPagination` (src/src/types/index.ts), minus the constant
`type: 'offset'` tag which is carried by the `Pagination` constructor. -/
structure OffsetPagination where
  page : Nat
  limit : Nat
  totalItems : Nat
  totalPages : Nat
  hasNextPage : Bool
  hasPrevPage : Bool
deriving DecidableEq, Repr

/-- `CursorPagination` (src/src/types/index.ts), minus the constant
`type: 'cursor'` tag. -/
structure CursorPagination where
  limit : Nat
  nextCursor : Option String
  prevCursor : Option String
  hasNextPage : Bool
  hasPrevPage : Bool
deriving DecidableEq, Repr

/-- The tagged union `OffsetPagination | CursorPagination`. -/
inductive Pagination where
  | offset (p : OffsetPagination)
  | cursor (p : CursorPagination)
deriving DecidableEq, Repr

/-- `ListResult`: `{ items, pagination }` as cached and returned. -/
structure ListResult where
  items : List ListItemData
  pagination : Pagination
deriving DecidableEq, Repr

/-- `PaginatedListResult`: a `ListResult` plus the `cacheHit` flag. -/
structure PaginatedListResult where
  items : List ListItemData
  pagination : Pagination
  cacheHit : Bool
deriving DecidableEq, Repr

namespace MyListService

/-- `MyListService.mapToListItemData`: project a stored document to the
response shape (`String(item._id)` is modelled by keeping the `Nat` id). -/
def mapToListItemData (e : Entry) : ListItemData :=
  { id := e.entryId
    contentId := e.content_id
    contentType := e.content_type
    title := e.title
    description := e.description
    genres := e.genres
    releaseDate := e.release_date
    director := e.director
    actors := e.actors
    addedAt := e.added_at }

/-- `MyListService.getListWithOffsetPagination` over an explicit store
`entries`.  `skip = (page-1)*limit`; `countDocuments({user_id})` is the
length of the user filter; the page is
`find({user_id}).sort({added_at:-1}).skip(skip).limit(limit)`;
`totalPages = Math.ceil(totalItems/limit)` is ceiling division (the code is
only ever called with `limit ≥ 1`). -/
def getListWithOffsetPagination (entries : List Entry) (userId : String)
    (page limit : Nat) : ListResult :=
  let skip := (page - 1) * limit
  let totalItems := (entries.filter (fun e => e.user_id = userId)).length
  let items := ((canonicalList entries userId).drop skip).take limit
  let totalPages := (totalItems + limit - 1) / limit
  { items := items.map mapToListItemData
    pagination := .offset
      { page := page
        limit := limit
        totalItems := totalItems
        totalPages := totalPages
        hasNextPage := decide (page < totalPages)
        hasPrevPage := decide (1 < page) } }

/-- A decoded cursor as used to build the Mongo query: the `added_at`
instant (milliseconds) and, when the cursor carried an `id` field, the
tie-break `_id`. -/
def CursorKey : Type := Nat × Option Nat

/-- The cursor part of the Mongo query built by
`getListWithCursorPagination`: with an `id`,
`$or: [ {added_at: {$lt: d}}, {added_at: d, _id: {$lt: id}} ]`; without an
`id` (legacy cursor), `added_at: {$lt: d}`; no cursor, no filter. -/
def cursorFilter (c : Option CursorKey) (e : Entry) : Bool :=
  match c with
  | none => true
  | some (d, some i) => decide (keyLt (entryKey e) (d, i))
  | some (d, none) => decide (e.added_at < d)

/-- The Mongo fetch
`find(query).sort({added_at:-1,_id:-1}).limit(limit+1)` of
`getListWithCursorPagination`: filter by user and cursor, canonical order,
first `limit+1` documents. -/
def cursorFetch (entries : List Entry) (userId : String) (c : Option CursorKey)
    (limit : Nat) : List Entry :=
  (sortDesc (entries.filter
    (fun e => e.user_id = userId && cursorFilter c e))).take (limit + 1)

/-- The core page construction of `getListWithCursorPagination`, after
cursor decoding and before cursor encoding: the returned items,
`hasNextPage = items.length > limit`, and the `(added_at, _id)` key of the
last returned item from which `nextCursor` is encoded (`null` when there is
no next page). -/
structure CursorPageCore where
  items : List Entry
  hasNextPage : Bool
  nextKey : Option (Nat × Nat)
deriving DecidableEq, Repr

/-- The cursor-mode page at the decoded-cursor level (the body of
`getListWithCursorPagination` between cursor decode and cursor encode). -/
def cursorPageCore (entries : List Entry) (userId : String)
    (c : Option CursorKey) (limit : Nat) : CursorPageCore :=
  let items := cursorFetch entries userId c limit
  let hasNextPage := decide (limit < items.length)
  let resultItems := if hasNextPage then items.take limit else items
  { items := resultItems
    hasNextPage := hasNextPage
    nextKey :=
      if hasNextPage then resultItems.getLast?.map entryKey else none }

/-- One step of the forward cursor walk: run a page, and if it announces a
next page, continue from the key its `nextCursor` encodes.  `fuel` bounds
the number of pages (the walk is proved to finish within
`entries.length + 1` pages). -/
def cursorWalkAux (entries : List Entry) (userId : String) (limit : Nat) :
    Nat → Option (Nat × Nat) → List Entry
  | 0, _ => []
  | fuel + 1, c =>
    let r := cursorPageCore entries userId (c.map (fun p => (p.1, some p.2))) limit
    if r.hasNextPage then
      match r.nextKey with
      | some k => r.items ++ cursorWalkAux entries userId limit fuel (some k)
      | none => r.items
    else r.items

/-- The full forward cursor walk from `cursor = null`: concatenation of all
pages obtained by feeding each page's `nextCursor` into the next call until
`hasNextPage = false`. -/
def cursorWalk (entries : List Entry) (userId : String) (limit : Nat) : List Entry :=
  cursorWalkAux entries userId limit (entries.length + 1) none

end MyListService

/-! ## Cursor codec (4.4): base64 and the JSON cursor payload

`nextCursor` is produced by
`Buffer.from(JSON.stringify({ added_at: ..toISOString(), id: String(_id) })).toString('base64')`
and consumed by `JSON.parse(Buffer.from(cursor, 'base64').toString('utf-8'))`
followed by `new Date(decoded.added_at)` plus an `isNaN` check.  All strings
involved are ASCII, so UTF-8 encoding is modelled as `Char.toNat`/`Char.ofNat`
on individual characters.  Node's base64 decoder never throws: it skips
characters outside the base64 alphabet and drops a trailing partial unit,
which the model reproduces (`b64DecodeLenient`). -/

/-- The base64 alphabet. -/
def b64Alphabet : List Char :=
  "ABCDEFGHIJKLMNOPQRSTUVWXYZabcdefghijklmnopqrstuvwxyz0123456789+/".data

/-- The base64 digit for a 6-bit value. -/
def b64Char (i : Nat) : Char := b64Alphabet.getD i '='

/-- The 6-bit value of a base64 digit, `none` for characters outside the
alphabet (including padding `=`). -/
def b64Val (c : Char) : Option Nat := b64Alphabet.indexOf? c

/-- Base64 encoding of a byte sequence, with `=` padding (Node
`buf.toString('base64')`). -/
def b64Encode : List Nat → List Char
  | [] => []
  | [b0] => [b64Char (b0 / 4), b64Char (b0 % 4 * 16), '=', '=']
  | [b0, b1] => [b64Char (b0 / 4), b64Char (b0 % 4 * 16 + b1 / 16), b64Char (b1 % 16 * 4), '=']
  | b0 :: b1 :: b2 :: rest =>
    b64Char (b0 / 4) :: b64Char (b0 % 4 * 16 + b1 / 16) ::
      b64Char (b1 % 16 * 4 + b2 / 64) :: b64Char (b2 % 64) :: b64Encode rest

/-- Reassemble bytes from a stream of 6-bit values, four at a time; a
trailing group of three or two values yields two bytes or one, a lone
trailing value is dropped (Node's lenient decoder). -/
def b64Regroup : List Nat → List Nat
  | c0 :: c1 :: c2 :: c3 :: rest =>
    (c0 * 4 + c1 / 16) :: (c1 % 16 * 16 + c2 / 4) :: (c2 % 4 * 64 + c3) :: b64Regroup rest
  | [c0, c1, c2] => [c0 * 4 + c1 / 16, c1 % 16 * 16 + c2 / 4]
  | [c0, c1] => [c0 * 4 + c1 / 16]
  | [_] => []
  | [] => []

/-- Node's `Buffer.from(s, 'base64')`: ignore characters outside the
alphabet, then regroup.  Total — base64 decoding never fails. -/
def b64DecodeLenient (s : List Char) : List Nat :=
  b64Regroup (s.filterMap b64Val)

/-- `JSON.stringify` escaping of one character inside a string literal
(the cursor payload never contains control characters, so only `"` and `\`
need escapes). -/
def jsonEscapeChar (c : Char) : List Char :=
  if c = '"' ∨ c = '\\' then ['\\', c] else [c]

/-- `JSON.stringify` of a string's contents (without the surrounding
quotes). -/
def jsonEscape (s : List Char) : List Char := (s.map jsonEscapeChar).flatten

/-- The exact text `JSON.stringify({ added_at, id })` produces for string
field values (field order as in the object literal in
`getListWithCursorPagination`); `id := none` renders the one-field object
a legacy cursor would contain. -/
def cursorJson (added_at : String) (id : Option String) : List Char :=
  "\x7b\"added_at\":\"".data ++ jsonEscape added_at.data ++ "\"".data ++
    (match id with
     | none => []
     | some i => ",\"id\":\"".data ++ jsonEscape i.data ++ "\"".data) ++
    "\x7d".data

/-- Parse a JSON string body after its opening quote, as a state machine
over the characters (`esc` records a pending backslash): returns the
unescaped contents and the remainder after the closing quote.  Accepts the
`\"` and `\\` escapes `jsonEscape` produces; anything else after a
backslash is rejected. -/
def parseJStringAux : Bool → List Char → Option (List Char × List Char)
  | _, [] => none
  | true, d :: rest =>
    if d = '"' ∨ d = '\\' then (parseJStringAux false rest).map (fun p => (d :: p.1, p.2))
    else none
  | false, c :: rest =>
    if c = '"' then some ([], rest)
    else if c = '\\' then parseJStringAux true rest
    else (parseJStringAux false rest).map (fun p => (c :: p.1, p.2))

/-- Parse a JSON string body after its opening quote. -/
def parseJString (s : List Char) : Option (List Char × List Char) :=
  parseJStringAux false s

/-- Strip an expected literal prefix. -/
def stripLit : List Char → List Char → Option (List Char)
  | [], s => some s
  | _ :: _, [] => none
  | c :: p, d :: s => if c = d then stripLit p s else none

/-- `JSON.parse` specialised to the cursor payload: an object whose first
field is a string `added_at` and whose optional second field is a string
`id` (the only shapes this code base ever writes into a cursor).  Returns
`(added_at, id)` or `none` for anything malformed. -/
def parseCursorJson (s : List Char) : Option (String × Option String) :=
  match stripLit "\x7b\"added_at\":\"".data s with
  | none => none
  | some s1 =>
    match parseJString s1 with
    | none => none
    | some (a, s2) =>
      if s2 = "\x7d".data then some (a.asString, none)
      else
        match stripLit ",\"id\":\"".data s2 with
        | none => none
        | some s3 =>
          match parseJString s3 with
          | none => none
          | some (i, s4) =>
            if s4 = "\x7d".data then some (a.asString, some i.asString) else none

/-! ## ISO-8601 instants

`Date.prototype.toISOString` emits `YYYY-MM-DDTHH:MM:SS.sssZ`; cursor
decoding runs `new Date(str)` and rejects the cursor when the result `isNaN`.
The model covers the instants this system can store and emit: the
`toISOString` format with years 1970..9999 (`added_at` is always a creation
timestamp).  Calendar arithmetic follows the standard civil-calendar
formulas (days counted from 0000-03-01, proleptic Gregorian). -/

/-- Decimal digit value of a character, `none` for non-digits. -/
def digitVal : Char → Option Nat
  | c => if c.isDigit then some (c.toNat - 48) else none

/-- Absolute day number of a civil date, counted from 0000-03-01
(March-based year). -/
def civilDays (y m d : Nat) : Nat :=
  let y' := if m ≤ 2 then y - 1 else y
  let mp := (m + 9) % 12
  365 * y' + y' / 4 - y' / 100 + y' / 400 + (153 * mp + 2) / 5 + (d - 1)

/-- `civilDays 1970 1 1`: the Unix epoch in absolute days. -/
def epochDays : Nat := civilDays 1970 1 1

/-- Length of a month in the proleptic Gregorian calendar. -/
def daysInMonth (y m : Nat) : Nat :=
  if m = 2 then (if y % 4 = 0 ∧ (y % 100 ≠ 0 ∨ y % 400 = 0) then 29 else 28)
  else if m = 4 ∨ m = 6 ∨ m = 9 ∨ m = 11 then 30
  else 31

/-- The millisecond timestamp of a civil date-time at or after the epoch. -/
def msOfCivil (y m d h mi s ms : Nat) : Nat :=
  (civilDays y m d - epochDays) * 86400000 + h * 3600000 + mi * 60000 + s * 1000 + ms

/-- `new Date(str).getTime()` on the `toISOString` shape: exactly
`YYYY-MM-DDTHH:MM:SS.sssZ` with in-range fields and year in 1970..9999;
`none` models an `isNaN` result. -/
def parseIso (str : String) : Option Nat :=
  match str.data with
  | [y1, y2, y3, y4, '-', m1, m2, '-', d1, d2, 'T',
     h1, h2, ':', i1, i2, ':', s1, s2, '.', f1, f2, f3, 'Z'] =>
    match digitVal y1, digitVal y2, digitVal y3, digitVal y4,
        digitVal m1, digitVal m2, digitVal d1, digitVal d2,
        digitVal h1, digitVal h2, digitVal i1, digitVal i2,
        digitVal s1, digitVal s2, digitVal f1, digitVal f2, digitVal f3 with
    | some a1, some a2, some a3, some a4, some b1, some b2, some c1, some c2,
        some e1, some e2, some g1, some g2, some k1, some k2, some l1, some l2, some l3 =>
      let y := a1 * 1000 + a2 * 100 + a3 * 10 + a4
      let m := b1 * 10 + b2
      let d := c1 * 10 + c2
      let h := e1 * 10 + e2
      let mi := g1 * 10 + g2
      let s := k1 * 10 + k2
      let f := l1 * 100 + l2 * 10 + l3
      if 1970 ≤ y ∧ 1 ≤ m ∧ m ≤ 12 ∧ 1 ≤ d ∧ d ≤ daysInMonth y m ∧
          h ≤ 23 ∧ mi ≤ 59 ∧ s ≤ 59 then
        some (msOfCivil y m d h mi s f)
      else none
    | _, _, _, _, _, _, _, _, _, _, _, _, _, _, _, _, _ => none
  | _ => none

/-- Civil date of an absolute day number (inverse direction of
`civilDays`). -/
def civilOfDays (z : Nat) : Nat × Nat × Nat :=
  let era := z / 146097
  let doe := z % 146097
  let yoe := (doe - doe / 1460 + doe / 36524 - doe / 146096) / 365
  let y' := yoe + era * 400
  let doy := doe - (365 * yoe + yoe / 4 - yoe / 100)
  let mp := (5 * doy + 2) / 153
  let d := doy - (153 * mp + 2) / 5 + 1
  let m := if mp < 10 then mp + 3 else mp - 9
  (if m ≤ 2 then y' + 1 else y', m, d)

/-- Fixed-width decimal rendering (`String.padStart`-style as used by
`toISOString`). -/
def padDigits (width n : Nat) : List Char :=
  (List.range width).map (fun i => Nat.digitChar (n / 10 ^ (width - 1 - i) % 10))

/-- `Date.prototype.toISOString` of a millisecond timestamp. -/
def msToIso (t : Nat) : String :=
  let days := t / 86400000
  let rem := t % 86400000
  let ymd := civilOfDays (days + epochDays)
  (padDigits 4 ymd.1 ++ "-".data ++ padDigits 2 ymd.2.1 ++ "-".data ++ padDigits 2 ymd.2.2 ++
    "T".data ++ padDigits 2 (rem / 3600000) ++ ":".data ++ padDigits 2 (rem % 3600000 / 60000) ++
    ":".data ++ padDigits 2 (rem % 60000 / 1000) ++ ".".data ++ padDigits 3 (rem % 1000) ++
    "Z".data).asString

/-- Decimal parse of a nonempty all-digit string, modelling the mongoose
cast of the cursor's `id` string back to an `ObjectId` (`none` is a
`CastError`). -/
def parseDec (s : List Char) : Option Nat :=
  if s ≠ [] ∧ s.all (fun c => c.isDigit) then
    some (s.foldl (fun a c => a * 10 + (c.toNat - 48)) 0)
  else none

/-- The decoded cursor of `getListWithCursorPagination`: the raw
`added_at` string, its parsed instant (`cursorDate`), and the optional
`id` field. -/
structure DecodedCursor where
  added_at : String
  addedAtMs : Nat
  id : Option String
deriving DecidableEq, Repr

/-- Cursor encoding (lines 296-304 of my-list-service.ts):
`Buffer.from(JSON.stringify({added_at, id})).toString('base64')`. -/
def encodeCursor (added_at : String) (id : String) : String :=
  ((b64Encode ((cursorJson added_at (some id)).map Char.toNat)).asString)

/-- Cursor decoding (lines 244-258 of my-list-service.ts):
base64-decode, `JSON.parse`, then `new Date(added_at)` with an `isNaN`
check.  Every failure — unparseable JSON, missing or invalid `added_at` —
surfaces as the `BadRequestError(INVALID_CURSOR_FORMAT)` thrown by the
`catch` block (the inner `BadRequestError(INVALID_CURSOR)` is itself caught
by that `catch` and replaced). -/
def decodeCursor (cursor : String) : Except ApiErr DecodedCursor :=
  let text := (b64DecodeLenient cursor.data).map Char.ofNat
  match parseCursorJson text with
  | none => .error (.badRequest "INVALID_CURSOR_FORMAT")
  | some (a, i) =>
    match parseIso a with
    | none => .error (.badRequest "INVALID_CURSOR_FORMAT")
    | some ms => .ok ⟨a, ms, i⟩

/-! ## Cache layer (4.5)

Redis is an association list of key/value pairs plus three transport-failure
flags, one per operation family; a raised flag models the `catch` paths of
cache-service.ts (every Redis error is caught and logged there, never
rethrown).  TTL expiry is time-based staleness and is outside this model;
`set`'s TTL argument is therefore dropped. -/

/-- The Redis connection state seen by `CacheService`. -/
structure CacheBackend where
  kv : List (String × ListResult)
  getFails : Bool
  setFails : Bool
  invalidateFails : Bool
deriving DecidableEq, Repr

/-- The tri-state result of `CacheService.get`:
`{ data, hit: true } | { data: null, hit: false }`. -/
structure CacheGetResult where
  data : Option ListResult
  hit : Bool
deriving DecidableEq, Repr

namespace CacheService

/-- Redis `GET key` on the healthy store. -/
def lookup (kv : List (String × ListResult)) (key : String) : Option ListResult :=
  (kv.find? (fun p => p.1 = key)).map Prod.snd

/-- `CacheService.get`: a transport error degrades to a miss (the `catch`
block returns `{ data: null, hit: false }`). -/
def get (b : CacheBackend) (key : String) : CacheGetResult :=
  if b.getFails then ⟨none, false⟩
  else
    match lookup b.kv key with
    | some v => ⟨some v, true⟩
    | none => ⟨none, false⟩

/-- `CacheService.set` (`redis.setex`): best-effort upsert; a transport
error is swallowed and the store is unchanged. -/
def set (b : CacheBackend) (key : String) (v : ListResult) : CacheBackend :=
  if b.setFails then b
  else { b with kv := (key, v) :: b.kv.filter (fun p => p.1 ≠ key) }

/-- `CacheService.invalidateUserCache`: `SCAN MATCH mylist:<userId>:*`
collecting every matching key, then one bulk `DEL` (a no-op when nothing
matched); a transport error anywhere in the sweep is swallowed, leaving the
store as it was. -/
def invalidateUserCache (b : CacheBackend) (userId : String) : CacheBackend :=
  if b.invalidateFails then b
  else { b with kv := b.kv.filter (fun p => !globMatchStr (getUserCachePattern userId) p.1) }

end CacheService

namespace MyListService

/-- `MyListService.getListWithCursorPagination` at the wire level.
`if (cursor)` treats a missing and an empty cursor alike (no decode, no
filter, `hasPrevPage = false`); otherwise the cursor is decoded
(`decodeCursor`), a falsy `id` field falls back to `added_at`-only
filtering, and a present `id` is cast back to an object id for the
tie-break query (`parseDec`; a failed cast is the mongoose `CastError` the
error handler maps to 400 `INVALID_ID_FORMAT`).  The page core is
`cursorPageCore`; `nextCursor` re-encodes the last returned item's
`(added_at, _id)`. -/
def getListWithCursorPagination (entries : List Entry) (userId : String)
    (cursor : Option String) (limit : Nat) : Except ApiErr ListResult :=
  let finish (c : Option CursorKey) (prevCursor : Option String) (hasPrevPage : Bool) :
      ListResult :=
    let core := cursorPageCore entries userId c limit
    { items := core.items.map mapToListItemData
      pagination := .cursor
        { limit := limit
          nextCursor := core.nextKey.map (fun k => encodeCursor (msToIso k.1) (Nat.repr k.2))
          prevCursor := prevCursor
          hasNextPage := core.hasNextPage
          hasPrevPage := hasPrevPage } }
  match CacheService.cursorOrNull cursor with
  | none => .ok (finish none none false)
  | some cs =>
    match decodeCursor cs with
    | .error e => .error e
    | .ok dc =>
      match dc.id with
      | some istr =>
        if istr = "" then .ok (finish (some (dc.addedAtMs, none)) (some cs) true)
        else
          match parseDec istr.data with
          | some i => .ok (finish (some (dc.addedAtMs, some i)) (some cs) true)
          | none => .error (.badRequest "INVALID_ID_FORMAT")
      | none => .ok (finish (some (dc.addedAtMs, none)) (some cs) true)

/-- The `{ page?, limit?, cursor? }` params of `MyListService.getList`. -/
structure GetListParams where
  page : Option Nat
  limit : Option Nat
  cursor : Option String
deriving DecidableEq, Repr

/-- `params.limit || 10`: a missing limit, and the falsy limit `0`, become
the default `10`. -/
def limitOrTen : Option Nat → Nat
  | none => 10
  | some l => if l = 0 then 10 else l

/-- `MyListService.getList`: derive the cache key, try the cache, on a miss
query the store per mode, populate the cache, and report `cacheHit`.
`params.limit || 10` and `params.page || 1` treat missing and `0` alike. -/
def getList (entries : List Entry) (cache : CacheBackend) (userId : String)
    (type : PaginationType) (params : GetListParams) :
    Except ApiErr (PaginatedListResult × CacheBackend) :=
  let limit := limitOrTen params.limit
  let cacheKey := CacheService.getCacheKey userId type
    ⟨params.page, params.cursor, limit⟩
  let cached := CacheService.get cache cacheKey
  match cached.data, cached.hit with
  | some data, true =>
    .ok ({ items := data.items, pagination := data.pagination, cacheHit := true }, cache)
  | _, _ =>
    let fetched : Except ApiErr ListResult :=
      match type with
      | .offset =>
        .ok (getListWithOffsetPagination entries userId (CacheService.pageOrOne params.page) limit)
      | .cursor => getListWithCursorPagination entries userId params.cursor limit
    match fetched with
    | .error e => .error e
    | .ok result =>
      .ok ({ items := result.items, pagination := result.pagination, cacheHit := false },
        CacheService.set cache cacheKey result)

end MyListService

/-! ## Store mutations (4.1, 4.2) and the content catalog -/

/-- The denormalized `contentData` record `addToList` assembles. -/
structure ContentData where
  title : String
  description : String
  genres : List String
  releaseDate : Nat
  director : Option String
  actors : List String
deriving DecidableEq, Repr

/-- A `Movie` document (content catalog collaborator). -/
structure MovieDoc where
  title : String
  description : String
  genres : List String
  releaseDate : Nat
  director : String
  actors : List String
deriving DecidableEq, Repr

/-- One episode of a `TVShow` document. -/
structure EpisodeDoc where
  releaseDate : Nat
  director : String
  actors : List String
deriving DecidableEq, Repr

/-- A `TVShow` document (content catalog collaborator). -/
structure ShowDoc where
  title : String
  description : String
  genres : List String
  episodes : List EpisodeDoc
deriving DecidableEq, Repr

/-- The content catalog: `Movie.findById` / `TVShow.findById`. -/
structure Catalog where
  movies : String → Option MovieDoc
  tvshows : String → Option ShowDoc

/-- `[...new Set(list)]`: deduplication keeping the first occurrence of
each element (`seen` is the set built so far). -/
def dedupFirstAux (seen : List String) : List String → List String
  | [] => []
  | a :: l => if a ∈ seen then dedupFirstAux seen l else a :: dedupFirstAux (a :: seen) l

/-- `[...new Set(list)]`. -/
def dedupFirst (l : List String) : List String := dedupFirstAux [] l

/-- The content lookup of `addToList`: movie fields are copied directly; a
show contributes its first episode's release date (`|| new Date()` when
there is no episode) and director, and the deduplicated union of episode
actors. -/
def resolveContent (cat : Catalog) (contentId : String) (ct : ContentType) (now : Nat) :
    Except ApiErr ContentData :=
  match ct with
  | .movie =>
    match cat.movies contentId with
    | none => .error (.notFound "MOVIE_NOT_FOUND")
    | some m =>
      .ok { title := m.title, description := m.description, genres := m.genres,
            releaseDate := m.releaseDate, director := some m.director, actors := m.actors }
  | .tvshow =>
    match cat.tvshows contentId with
    | none => .error (.notFound "TV_SHOW_NOT_FOUND")
    | some tv =>
      let firstEpisode := tv.episodes.head?
      let allActors := dedupFirst ((tv.episodes.map (fun ep => ep.actors)).flatten)
      .ok { title := tv.title, description := tv.description, genres := tv.genres,
            releaseDate := match firstEpisode with
              | some ep => ep.releaseDate
              | none => now,
            director := firstEpisode.map (fun ep => ep.director),
            actors := allActors }

/-- The document `MyListItem.create` inserts. -/
def newEntry (userId contentId : String) (ct : ContentType) (now newId : Nat)
    (c : ContentData) : Entry :=
  { entryId := newId, user_id := userId, content_id := contentId, content_type := ct,
    added_at := now, title := c.title, description := c.description, genres := c.genres,
    release_date := c.releaseDate, director := c.director, actors := c.actors }

/-- The mutable system state the service orchestrates: the Mongo collection
and the Redis cache. -/
structure MyListState where
  entries : List Entry
  cache : CacheBackend
deriving DecidableEq, Repr

/-- Does the store hold an entry for `(userId, contentId)`
(`findOne({user_id, content_id})`)? -/
def hasPair (entries : List Entry) (userId contentId : String) : Bool :=
  entries.any (fun e => e.user_id = userId && e.content_id = contentId)

namespace MyListService

/-- `MyListService.addToList` run to completion with no interleaving:
duplicate check, content lookup, insert, cache invalidation.  `now` is the
clock reading for `added_at` and `newId` the id Mongo mints for the new
document. -/
def addToList (cat : Catalog) (st : MyListState) (userId contentId : String)
    (ct : ContentType) (now newId : Nat) : Except ApiErr (ListItemData × MyListState) :=
  if hasPair st.entries userId contentId then
    .error (.conflict "ITEM_ALREADY_IN_LIST")
  else
    match resolveContent cat contentId ct now with
    | .error e => .error e
    | .ok c =>
      let e := newEntry userId contentId ct now newId c
      .ok (mapToListItemData e,
        { entries := st.entries ++ [e],
          cache := CacheService.invalidateUserCache st.cache userId })

/-- `MyListService.removeFromList`: `deleteOne({user_id, content_id})`
removes the first matching document; `deletedCount === 0` is NotFound; on
success the user's cache is invalidated. -/
def removeFromList (st : MyListState) (userId contentId : String) :
    Except ApiErr MyListState :=
  if hasPair st.entries userId contentId then
    .ok { entries := st.entries.eraseP (fun e => e.user_id = userId && e.content_id = contentId),
          cache := CacheService.invalidateUserCache st.cache userId }
  else .error (.notFound "ITEM_NOT_IN_LIST")

end MyListService

/-- System states reachable by sequential runs of the service operations,
starting from an empty collection.  The `add` step's freshness side
condition models Mongo minting a collection-unique `_id`. -/
inductive Reachable (cat : Catalog) : MyListState → Prop where
  | init (cache : CacheBackend) : Reachable cat ⟨[], cache⟩
  | add {st : MyListState} {item : ListItemData} {st' : MyListState}
      {userId contentId : String} {ct : ContentType} {now newId : Nat}
      (hr : Reachable cat st)
      (hfresh : ∀ e ∈ st.entries, e.entryId ≠ newId)
      (hstep : MyListService.addToList cat st userId contentId ct now newId = .ok (item, st')) :
      Reachable cat st'
  | remove {st st' : MyListState} {userId contentId : String}
      (hr : Reachable cat st)
      (hstep : MyListService.removeFromList st userId contentId = .ok st') :
      Reachable cat st'
  | list {st : MyListState} {userId : String} {type : PaginationType}
      {params : MyListService.GetListParams} {r : PaginatedListResult} {cb : CacheBackend}
      (hr : Reachable cat st)
      (hstep : MyListService.getList st.entries st.cache userId type params = .ok (r, cb)) :
      Reachable cat ⟨st.entries, cb⟩

/-! ## Concurrent duplicate adds (5, 8: "No duplicates")

`addToList` is not atomic: the duplicate `findOne` and the `create` are
separate awaited Store calls, so two concurrent adds for the same
`(userId, contentId)` can both pass the `findOne` check.  What makes the
outcome deterministic is the collection's unique compound index on
`(user_id, content_id)`: the second `create` raises `MongoServerError`
E11000, which the global error handler maps to the same 409 Conflict as the
explicit check.  The model below interleaves N copies of `addToList` for
one fixed `(userId, contentId, contentType)` at their await points; the
store itself only ever executes one operation at a time. -/

/-- Where one concurrent `addToList` call stands: before its `findOne`,
between `findOne`/content lookup and `create`, or finished with its
outcome (`ok` carries the created document's `_id`). -/
inductive AddTaskPhase where
  | start
  | checked (c : ContentData)
  | done (r : Except ApiErr Nat)
deriving Repr

/-- Global state of the concurrent-adds experiment. -/
structure ConcState where
  store : List Entry
  tasks : List AddTaskPhase
deriving Repr

/-- One interleaving step of N concurrent `addToList userId contentId ct`
calls.  `checkDup`: the `findOne` sees an existing pair and the service
throws Conflict.  `checkNotFound` / `checkPass`: the `findOne` sees no
pair and the content lookup fails or succeeds.  `createDup`: the `create`
hits the unique index (E11000 → 409 Conflict).  `createOk`: the `create`
inserts the document with a collection-fresh `_id`. -/
inductive ConcStep (cat : Catalog) (userId contentId : String) (ct : ContentType) :
    ConcState → ConcState → Prop where
  | checkDup {s : ConcState} {i : Nat}
      (ht : s.tasks.get? i = some .start)
      (hdup : hasPair s.store userId contentId = true) :
      ConcStep cat userId contentId ct s
        ⟨s.store, s.tasks.set i (.done (.error (.conflict "ITEM_ALREADY_IN_LIST")))⟩
  | checkNotFound {s : ConcState} {i now : Nat} {e : ApiErr}
      (ht : s.tasks.get? i = some .start)
      (hdup : hasPair s.store userId contentId = false)
      (hc : resolveContent cat contentId ct now = .error e) :
      ConcStep cat userId contentId ct s ⟨s.store, s.tasks.set i (.done (.error e))⟩
  | checkPass {s : ConcState} {i now : Nat} {c : ContentData}
      (ht : s.tasks.get? i = some .start)
      (hdup : hasPair s.store userId contentId = false)
      (hc : resolveContent cat contentId ct now = .ok c) :
      ConcStep cat userId contentId ct s ⟨s.store, s.tasks.set i (.checked c)⟩
  | createDup {s : ConcState} {i : Nat} {c : ContentData}
      (ht : s.tasks.get? i = some (.checked c))
      (hdup : hasPair s.store userId contentId = true) :
      ConcStep cat userId contentId ct s
        ⟨s.store, s.tasks.set i (.done (.error (.conflict "ITEM_ALREADY_IN_LIST")))⟩
  | createOk {s : ConcState} {i now newId : Nat} {c : ContentData}
      (ht : s.tasks.get? i = some (.checked c))
      (hdup : hasPair s.store userId contentId = false)
      (hfresh : ∀ e ∈ s.store, e.entryId ≠ newId) :
      ConcStep cat userId contentId ct s
        ⟨s.store ++ [newEntry userId contentId ct now newId c],
          s.tasks.set i (.done (.ok newId))⟩

/-- A task that finished successfully. -/
def isDoneOk : AddTaskPhase → Bool
  | .done (.ok _) => true
  | _ => false

/-- A task that finished with the duplicate-add Conflict. -/
def isDoneConflict : AddTaskPhase → Bool
  | .done (.error (.conflict _)) => true
  | _ => false

/-- A task that finished (either way). -/
def isDone : AddTaskPhase → Bool
  | .done _ => true
  | _ => false

/-- How many documents for the pair the store holds. -/
def pairCount (store : List Entry) (userId contentId : String) : Nat :=
  (store.filter (fun e => e.user_id = userId && e.content_id = contentId)).length

/-- At most one document per `(user_id, content_id)` pair: the invariant
the schema's unique compound index enforces. -/
def PairUnique (l : List Entry) : Prop :=
  l.Pairwise (fun a b => ¬(a.user_id = b.user_id ∧ a.content_id = b.content_id))

/-- The content catalog can resolve `(contentId, ct)`. -/
def contentExists (cat : Catalog) (contentId : String) (ct : ContentType) : Prop :=
  match ct with
  | .movie => (cat.movies contentId).isSome
  | .tvshow => (cat.tvshows contentId).isSome

/-- Strictly descending in canonical order: every earlier entry's
`(added_at, _id)` key is strictly above every later one's. -/
def StrictDesc (l : List Entry) : Prop :=
  l.Pairwise (fun a b => keyLt (entryKey b) (entryKey a))

/-- An order the offset-mode query
`find({user_id}).sort({ added_at: -1 })` may return: a permutation of the
user's documents that is `added_at`-descending.  Unlike the cursor-mode
query, the offset query has no `_id` tie-break, so Mongo leaves the
relative order of documents with equal `added_at` unspecified. -/
def MongoOffsetOrder (entries : List Entry) (userId : String) (l : List Entry) : Prop :=
  l.Perm (entries.filter (fun e => e.user_id = userId)) ∧
  l.Pairwise (fun a b => b.added_at ≤ a.added_at)

instance (entries : List Entry) (userId : String) (l : List Entry) :
    Decidable (MongoOffsetOrder entries userId l) := by
  unfold MongoOffsetOrder; infer_instance

/-- `MyListService.getListWithOffsetPagination` with the Mongo fetch made
explicit: `l` is the order the `added_at`-only sort returned, the page is
skip/take of `l`, and the metadata comes from the separate
`countDocuments`. -/
def offsetPageOver (entries : List Entry) (userId : String) (l : List Entry)
    (page limit : Nat) : ListResult :=
  let skip := (page - 1) * limit
  let totalItems := (entries.filter (fun e => e.user_id = userId)).length
  let items := (l.drop skip).take limit
  let totalPages := (totalItems + limit - 1) / limit
  { items := items.map MyListService.mapToListItemData
    pagination := .offset
      { page := page
        limit := limit
        totalItems := totalItems
        totalPages := totalPages
        hasNextPage := decide (page < totalPages)
        hasPrevPage := decide (1 < page) } }

/-! ## Theorems -/

theorem sortDesc_perm (l : List Entry) : (sortDesc l).Perm l :=
  List.perm_insertionSort descGe l

theorem sortDesc_sorted (l : List Entry) : (sortDesc l).Pairwise descGe :=
  List.sorted_insertionSort descGe l

theorem strictDesc_of_pairwise_of_nodup {l : List Entry}
    (hs : l.Pairwise descGe) (hn : (l.map Entry.entryId).Nodup) : StrictDesc l := by
  have hn' : l.Pairwise (fun a b => a.entryId ≠ b.entryId) := List.pairwise_map.mp hn
  exact (hs.and hn').imp (by
    intro a b h
    obtain ⟨h1, h2⟩ := h
    unfold descGe at h1
    unfold keyLt entryKey at *
    simp only at *
    omega)

theorem sortDesc_strictDesc {l : List Entry}
    (hn : (l.map Entry.entryId).Nodup) : StrictDesc (sortDesc l) :=
  strictDesc_of_pairwise_of_nodup (sortDesc_sorted l)
    (((sortDesc_perm l).map Entry.entryId).nodup_iff.mpr hn)

theorem keyLt_asymm {k c : Nat × Nat} (h : keyLt k c) : ¬keyLt c k := by
  unfold keyLt at *; omega

theorem keyLt_trans {a b c : Nat × Nat} (h1 : keyLt a b) (h2 : keyLt b c) : keyLt a c := by
  unfold keyLt at *; omega

theorem eq_of_perm_of_strictDesc {l₁ l₂ : List Entry}
    (hp : l₁.Perm l₂) (h₁ : StrictDesc l₁) (h₂ : StrictDesc l₂) : l₁ = l₂ := by
  haveI : IsAntisymm Entry (fun a b => keyLt (entryKey b) (entryKey a)) :=
    ⟨fun a b hab hba => absurd hab (keyLt_asymm hba)⟩
  exact List.eq_of_perm_of_sorted hp h₁ h₂

theorem StrictDesc.filter {l : List Entry} (h : StrictDesc l) (p : Entry → Bool) :
    StrictDesc (l.filter p) := List.Pairwise.filter p h

/-- Filtering commutes with the canonical sort (the cursor query's filter
can be applied before or after sorting), provided `_id`s are unique. -/
theorem sortDesc_filter_comm {l : List Entry} (p : Entry → Bool)
    (hn : (l.map Entry.entryId).Nodup) :
    sortDesc (l.filter p) = (sortDesc l).filter p := by
  have hfn : ((l.filter p).map Entry.entryId).Nodup := by
    have : (l.filter p).Sublist l := List.filter_sublist l
    exact (this.map Entry.entryId).nodup hn
  refine eq_of_perm_of_strictDesc ?_ (sortDesc_strictDesc hfn)
    ((sortDesc_strictDesc hn).filter p)
  exact (sortDesc_perm (l.filter p)).trans ((sortDesc_perm l).filter p).symm

/-- In a strictly descending list, filtering strictly below the key of the
element at index `n` keeps exactly the suffix after index `n`. -/
theorem filter_keyLt_get {L : List Entry} (h : StrictDesc L) (n : Nat) (hn : n < L.length) :
    L.filter (fun e => decide (keyLt (entryKey e) (entryKey (L.get ⟨n, hn⟩)))) =
      L.drop (n + 1) := by
  induction L generalizing n with
  | nil => simp at hn
  | cons a L ih =>
    have hhead : ∀ e ∈ L, keyLt (entryKey e) (entryKey a) :=
      (List.pairwise_cons.mp h).1
    have htail : StrictDesc L := (List.pairwise_cons.mp h).2
    cases n with
    | zero =>
      simp only [List.get, List.filter_cons, List.drop_succ_cons, List.drop_zero]
      have : ¬keyLt (entryKey a) (entryKey a) := by unfold keyLt; omega
      simp only [decide_eq_false this]
      exact List.filter_eq_self.mpr (fun e he => by simpa using hhead e he)
    | succ n =>
      have hn' : n < L.length := by simpa using hn
      have hpiv : (a :: L).get ⟨n + 1, hn⟩ = L.get ⟨n, hn'⟩ := rfl
      rw [hpiv, List.filter_cons, List.drop_succ_cons]
      have hmem : L.get ⟨n, hn'⟩ ∈ L := L.get_mem n hn'
      have : ¬keyLt (entryKey a) (entryKey (L.get ⟨n, hn'⟩)) :=
        fun hlt => keyLt_asymm hlt (hhead _ hmem)
      simp only [decide_eq_false this]
      exact ih htail n hn'

theorem canonicalList_strictDesc {entries : List Entry} {u : String}
    (hn : (entries.map Entry.entryId).Nodup) : StrictDesc (canonicalList entries u) := by
  unfold canonicalList
  exact sortDesc_strictDesc (((List.filter_sublist entries).map Entry.entryId).nodup hn)

/-- The cursor-mode page core, expressed over the user's canonical
sequence: the page is the first `limit` entries of the canonical sequence
filtered through the cursor condition, `hasNextPage` says whether that
filtered sequence is longer than `limit`, and `nextKey` is the key of the
last returned entry when it is. -/
theorem cursorPageCore_eq (entries : List Entry) (u : String) (ck : Option MyListService.CursorKey)
    (limit : Nat) (hn : (entries.map Entry.entryId).Nodup) :
    MyListService.cursorPageCore entries u ck limit =
      { items := ((canonicalList entries u).filter (MyListService.cursorFilter ck)).take limit
        hasNextPage :=
          decide (limit < ((canonicalList entries u).filter (MyListService.cursorFilter ck)).length)
        nextKey :=
          if limit < ((canonicalList entries u).filter (MyListService.cursorFilter ck)).length then
            (((canonicalList entries u).filter (MyListService.cursorFilter ck)).take
              limit).getLast?.map entryKey
          else none } := by
  set q := (canonicalList entries u).filter (MyListService.cursorFilter ck) with hq
  have hfetch : MyListService.cursorFetch entries u ck limit = q.take (limit + 1) := by
    unfold MyListService.cursorFetch
    have h1 : entries.filter (fun e => e.user_id = u && MyListService.cursorFilter ck e) =
        (entries.filter (fun e => e.user_id = u)).filter (MyListService.cursorFilter ck) := by
      rw [List.filter_filter]
      exact List.filter_congr (fun x _ => Bool.and_comm _ _)
    have hsub : ((entries.filter (fun e => e.user_id = u)).map Entry.entryId).Sublist
        (entries.map Entry.entryId) := (List.filter_sublist entries).map Entry.entryId
    rw [h1, sortDesc_filter_comm (MyListService.cursorFilter ck) (hsub.nodup hn)]
    rfl
  have hnext : decide (limit < (q.take (limit + 1)).length) = decide (limit < q.length) := by
    rw [List.length_take]
    exact decide_eq_decide.mpr (by omega)
  unfold MyListService.cursorPageCore
  rw [hfetch]
  dsimp only
  rw [hnext]
  by_cases hcase : limit < q.length
  · rw [if_pos hcase, decide_eq_true hcase]
    simp only [if_true]
    have htt : (q.take (limit + 1)).take limit = q.take limit := by
      rw [List.take_take]
      congr 1
      omega
    rw [htt]
  · rw [if_neg hcase, decide_eq_false hcase]
    simp only [Bool.false_eq_true, if_false]
    have hall : q.take (limit + 1) = q := List.take_of_length_le (by omega)
    have hall2 : q.take limit = q := List.take_of_length_le (by omega)
    rw [hall, hall2]

theorem cursorFilter_some_pair (k : Nat × Nat) (e : Entry) :
    MyListService.cursorFilter (some (k.1, some k.2)) e = decide (keyLt (entryKey e) k) := by
  obtain ⟨k1, k2⟩ := k
  rfl

theorem filter_below_piv {L M : List Entry} (cf : Entry → Bool) (piv : Entry)
    (hM : L.filter cf = M)
    (himp : ∀ e, keyLt (entryKey e) (entryKey piv) → cf e = true) :
    L.filter (fun e => decide (keyLt (entryKey e) (entryKey piv))) =
      M.filter (fun e => decide (keyLt (entryKey e) (entryKey piv))) := by
  subst hM
  rw [List.filter_filter]
  apply List.filter_congr
  intro e _
  by_cases hb : keyLt (entryKey e) (entryKey piv)
  · rw [decide_eq_true hb, himp e hb]
    simp
  · rw [decide_eq_false hb]
    simp

/-- The generic step lemma for the forward cursor walk: if the canonical
sequence filtered through the current cursor is `M` and the fuel exceeds
`M.length`, the remaining walk returns exactly `M`. -/
theorem cursorWalkAux_eq {entries : List Entry} {u : String} {limit : Nat}
    (hn : (entries.map Entry.entryId).Nodup) (hl : 1 ≤ limit) :
    ∀ (fuel : Nat) (c : Option (Nat × Nat)) (M : List Entry),
      (canonicalList entries u).filter
        (MyListService.cursorFilter (c.map (fun p => (p.1, some p.2)))) = M →
      M.length < fuel →
      MyListService.cursorWalkAux entries u limit fuel c = M := by
  intro fuel
  induction fuel with
  | zero => intro c M _ h; omega
  | succ fuel ih =>
    intro c M hM hfuel
    have hMstrict : StrictDesc M := hM ▸ ((canonicalList_strictDesc hn).filter _)
    simp only [MyListService.cursorWalkAux]
    rw [cursorPageCore_eq entries u _ limit hn, hM]
    dsimp only
    by_cases hnx : limit < M.length
    · rw [if_pos hnx, decide_eq_true hnx]
      have hlt : limit - 1 < M.length := by omega
      have hlast : (M.take limit).getLast? = some (M.get ⟨limit - 1, hlt⟩) := by
        rw [List.getLast?_eq_getElem?, List.length_take]
        have hmin : min limit M.length = limit := by omega
        rw [hmin, List.getElem?_take_of_lt (by omega), List.getElem?_eq_getElem hlt]
        rfl
      rw [hlast]
      simp only [Option.map_some', if_true]
      have hpivmem : M.get ⟨limit - 1, hlt⟩ ∈ M := M.get_mem _ _
      have hdrop : MyListService.cursorWalkAux entries u limit fuel
          (some (entryKey (M.get ⟨limit - 1, hlt⟩))) = M.drop limit := by
        apply ih
        · have hstep0 : (canonicalList entries u).filter
              (MyListService.cursorFilter
                ((some (entryKey (M.get ⟨limit - 1, hlt⟩))).map (fun p => (p.1, some p.2)))) =
              (canonicalList entries u).filter
                (fun e => decide (keyLt (entryKey e) (entryKey (M.get ⟨limit - 1, hlt⟩)))) :=
            List.filter_congr (fun x _ => cursorFilter_some_pair _ x)
          rw [hstep0]
          have hpivmem2 : M.get ⟨limit - 1, hlt⟩ ∈ (canonicalList entries u).filter
              (MyListService.cursorFilter (c.map (fun p => (p.1, some p.2)))) := by
            rw [hM]; exact hpivmem
          have hcfpiv : MyListService.cursorFilter
              (c.map (fun p => (p.1, some p.2))) (M.get ⟨limit - 1, hlt⟩) = true :=
            List.of_mem_filter hpivmem2
          have hstep1 := filter_below_piv
            (MyListService.cursorFilter (c.map (fun p => (p.1, some p.2))))
            (M.get ⟨limit - 1, hlt⟩) hM (by
              intro e hbelow
              cases c with
              | none => rfl
              | some p =>
                rw [Option.map_some'] at hcfpiv ⊢
                obtain ⟨p1, p2⟩ := p
                simp only [MyListService.cursorFilter, decide_eq_true_eq] at hcfpiv ⊢
                exact keyLt_trans hbelow hcfpiv)
          rw [hstep1]
          have hidx : limit - 1 + 1 = limit := by omega
          have hfin := filter_keyLt_get hMstrict (limit - 1) hlt
          rw [hidx] at hfin
          exact hfin
        · rw [List.length_drop]
          omega
      rw [hdrop, List.take_append_drop]
    · rw [if_neg hnx, decide_eq_false hnx]
      simp only [Bool.false_eq_true, if_false]
      exact List.take_of_length_le (by omega)

theorem canonicalList_perm (entries : List Entry) (u : String) :
    (canonicalList entries u).Perm (entries.filter (fun e => e.user_id = u)) :=
  sortDesc_perm _

theorem cursorWalk_eq_canonical (entries : List Entry) (u : String) (limit : Nat)
    (hl : 1 ≤ limit) (hn : (entries.map Entry.entryId).Nodup) :
    MyListService.cursorWalk entries u limit = canonicalList entries u := by
  unfold MyListService.cursorWalk
  apply cursorWalkAux_eq hn hl
  · exact List.filter_true _
  · have h1 : (canonicalList entries u).length =
        (entries.filter (fun e => e.user_id = u)).length :=
      (canonicalList_perm entries u).length_eq
    have h2 := List.length_filter_le (fun e => e.user_id = u) entries
    omega

/-- C1: for every user and every store of list entries with
collection-unique `_id`s (entries may share `added_at`), and every
`limit ≥ 1`, the full forward cursor walk — `cursor = null`, then feeding
each page's `nextCursor` back in until `hasNextPage = false` — returns
exactly the user's canonical sequence: every entry of that user exactly
once (a permutation of the user's entries, hence no duplicates and no
omissions), in canonical order (`added_at` descending, `_id` descending). -/
theorem cursor_walk_complete (entries : List Entry) (u : String) (limit : Nat)
    (hl : 1 ≤ limit) (hn : (entries.map Entry.entryId).Nodup) :
    MyListService.cursorWalk entries u limit = canonicalList entries u ∧
    (MyListService.cursorWalk entries u limit).Perm
      (entries.filter (fun e => e.user_id = u)) ∧
    StrictDesc (MyListService.cursorWalk entries u limit) := by
  have h := cursorWalk_eq_canonical entries u limit hl hn
  refine ⟨h, ?_, ?_⟩
  · rw [h]; exact canonicalList_perm entries u
  · rw [h]; exact canonicalList_strictDesc hn

/-- Witness for C1: a four-entry store with an `added_at` tie (ids 2 and 3
both at t = 200) and a second user, walked with `limit = 1`. -/
theorem cursor_walk_complete_witness :
    MyListService.cursorWalk
        [⟨1, "u", "a", .movie, 100, "t", "d", [], 0, none, []⟩,
         ⟨2, "u", "b", .movie, 200, "t", "d", [], 0, none, []⟩,
         ⟨3, "u", "c", .tvshow, 200, "t", "d", [], 0, none, []⟩,
         ⟨4, "v", "a", .movie, 300, "t", "d", [], 0, none, []⟩] "u" 1 =
      canonicalList
        [⟨1, "u", "a", .movie, 100, "t", "d", [], 0, none, []⟩,
         ⟨2, "u", "b", .movie, 200, "t", "d", [], 0, none, []⟩,
         ⟨3, "u", "c", .tvshow, 200, "t", "d", [], 0, none, []⟩,
         ⟨4, "v", "a", .movie, 300, "t", "d", [], 0, none, []⟩] "u" ∧
    (MyListService.cursorWalk
        [⟨1, "u", "a", .movie, 100, "t", "d", [], 0, none, []⟩,
         ⟨2, "u", "b", .movie, 200, "t", "d", [], 0, none, []⟩,
         ⟨3, "u", "c", .tvshow, 200, "t", "d", [], 0, none, []⟩,
         ⟨4, "v", "a", .movie, 300, "t", "d", [], 0, none, []⟩] "u" 1).Perm
      ([⟨1, "u", "a", .movie, 100, "t", "d", [], 0, none, []⟩,
        ⟨2, "u", "b", .movie, 200, "t", "d", [], 0, none, []⟩,
        ⟨3, "u", "c", .tvshow, 200, "t", "d", [], 0, none, []⟩,
        ⟨4, "v", "a", .movie, 300, "t", "d", [], 0, none, []⟩].filter
          (fun e => e.user_id = "u")) ∧
    StrictDesc (MyListService.cursorWalk
        [⟨1, "u", "a", .movie, 100, "t", "d", [], 0, none, []⟩,
         ⟨2, "u", "b", .movie, 200, "t", "d", [], 0, none, []⟩,
         ⟨3, "u", "c", .tvshow, 200, "t", "d", [], 0, none, []⟩,
         ⟨4, "v", "a", .movie, 300, "t", "d", [], 0, none, []⟩] "u" 1) :=
  cursor_walk_complete _ "u" 1 (by decide) (by decide)

theorem ceilDiv_mul_ge (t l : Nat) (hl : 1 ≤ l) : t ≤ ((t + l - 1) / l) * l := by
  have h := Nat.div_add_mod (t + l - 1) l
  have h2 : (t + l - 1) % l < l := Nat.mod_lt _ (by omega)
  rw [Nat.mul_comm]
  generalize hm : l * ((t + l - 1) / l) = m at *
  omega

theorem ceilDiv_least (t l n : Nat) (hl : 1 ≤ l) (h : t ≤ n * l) : (t + l - 1) / l ≤ n := by
  by_contra hq
  have hq2 : n + 1 ≤ (t + l - 1) / l := by omega
  have h3 : (n + 1) * l ≤ ((t + l - 1) / l) * l := Nat.mul_le_mul_right l hq2
  have h4 : ((t + l - 1) / l) * l ≤ t + l - 1 := Nat.div_mul_le_self _ _
  have h5 : (n + 1) * l = n * l + l := by ring
  generalize hm : n * l = m at *
  generalize hk : ((t + l - 1) / l) * l = k at *
  omega

/-- Every order the `added_at`-only sort may return is the canonical order
when the user's entries have pairwise-distinct `added_at` instants. -/
theorem mongoOffsetOrder_eq_canonical {entries : List Entry} {u : String} {l : List Entry}
    (hl : MongoOffsetOrder entries u l)
    (hn : ((entries.filter (fun e => e.user_id = u)).map Entry.added_at).Nodup) :
    l = canonicalList entries u := by
  obtain ⟨hperm, hsorted⟩ := hl
  haveI : IsAntisymm Entry (fun a b => b.added_at < a.added_at) :=
    ⟨fun a b hab hba => absurd hab (by omega)⟩
  have hnl : (l.map Entry.added_at).Nodup := ((hperm.map Entry.added_at).nodup_iff).mpr hn
  have hstrict_l : l.Pairwise (fun a b => b.added_at < a.added_at) := by
    have hne : l.Pairwise (fun a b => a.added_at ≠ b.added_at) := List.pairwise_map.mp hnl
    exact (hsorted.and hne).imp (by intro a b h; omega)
  have hcs : (canonicalList entries u).Pairwise (fun a b => b.added_at ≤ a.added_at) :=
    (sortDesc_sorted _).imp (by
      intro a b h
      unfold descGe entryKey at h
      simp only at h
      omega)
  have hnc : ((canonicalList entries u).map Entry.added_at).Nodup :=
    (((canonicalList_perm entries u).map Entry.added_at).nodup_iff).mpr hn
  have hstrict_c : (canonicalList entries u).Pairwise (fun a b => b.added_at < a.added_at) := by
    have hne : (canonicalList entries u).Pairwise (fun a b => a.added_at ≠ b.added_at) :=
      List.pairwise_map.mp hnc
    exact (hcs.and hne).imp (by intro a b h; omega)
  exact List.eq_of_perm_of_sorted (hperm.trans (canonicalList_perm entries u).symm)
    hstrict_l hstrict_c

/-- Counterexample to C6 as stated: the offset query sorts by `added_at`
only (`.sort({ added_at: -1 })`, with no `_id` tie-break), so on an
`added_at` tie both relative orders are admissible Mongo results; they
yield different pages, and one of them differs from the canonical
`(added_at, _id)`-descending page -- the canonical order of the returned
page is not guaranteed by the program. -/
theorem offset_pagination_order_counterexample :
    MongoOffsetOrder
      ([⟨1, "u", "a", .movie, 5, "t", "d", [], 0, none, []⟩,
        ⟨2, "u", "b", .movie, 5, "t", "d", [], 0, none, []⟩] : List Entry) "u"
      [⟨1, "u", "a", .movie, 5, "t", "d", [], 0, none, []⟩,
       ⟨2, "u", "b", .movie, 5, "t", "d", [], 0, none, []⟩] ∧
    MongoOffsetOrder
      ([⟨1, "u", "a", .movie, 5, "t", "d", [], 0, none, []⟩,
        ⟨2, "u", "b", .movie, 5, "t", "d", [], 0, none, []⟩] : List Entry) "u"
      [⟨2, "u", "b", .movie, 5, "t", "d", [], 0, none, []⟩,
       ⟨1, "u", "a", .movie, 5, "t", "d", [], 0, none, []⟩] ∧
    offsetPageOver
      ([⟨1, "u", "a", .movie, 5, "t", "d", [], 0, none, []⟩,
        ⟨2, "u", "b", .movie, 5, "t", "d", [], 0, none, []⟩] : List Entry) "u"
      [⟨1, "u", "a", .movie, 5, "t", "d", [], 0, none, []⟩,
       ⟨2, "u", "b", .movie, 5, "t", "d", [], 0, none, []⟩] 1 1 ≠
    offsetPageOver
      ([⟨1, "u", "a", .movie, 5, "t", "d", [], 0, none, []⟩,
        ⟨2, "u", "b", .movie, 5, "t", "d", [], 0, none, []⟩] : List Entry) "u"
      [⟨2, "u", "b", .movie, 5, "t", "d", [], 0, none, []⟩,
       ⟨1, "u", "a", .movie, 5, "t", "d", [], 0, none, []⟩] 1 1 ∧
    (offsetPageOver
      ([⟨1, "u", "a", .movie, 5, "t", "d", [], 0, none, []⟩,
        ⟨2, "u", "b", .movie, 5, "t", "d", [], 0, none, []⟩] : List Entry) "u"
      [⟨1, "u", "a", .movie, 5, "t", "d", [], 0, none, []⟩,
       ⟨2, "u", "b", .movie, 5, "t", "d", [], 0, none, []⟩] 1 1).items ≠
    (MyListService.getListWithOffsetPagination
      ([⟨1, "u", "a", .movie, 5, "t", "d", [], 0, none, []⟩,
        ⟨2, "u", "b", .movie, 5, "t", "d", [], 0, none, []⟩] : List Entry) "u" 1 1).items := by
  refine ⟨by decide, by decide, by decide, by decide⟩

/-- C6 (amended): in offset mode with `page ≥ 1` and `1 ≤ limit ≤ 100`,
for EVERY order `l` the `added_at`-only sort may return: the items are
skip `(page-1)*limit` / take `limit` of `l`; the metadata block is exact
regardless of `l` (`totalItems` counts the user's entries, `totalPages` is
the least `n` with `totalItems ≤ n*limit`, `hasNextPage = (page <
totalPages)`, `hasPrevPage = (page > 1)`, and a page beyond `totalPages`
is an empty item list with the same well-formed block, not an error);
every returned document is the user's and the page is `added_at`-
descending; and when the user's entries have pairwise-distinct `added_at`
the admissible order is unique -- it is the canonical order and the page
is the canonical page.  On `added_at` ties the canonical `_id` tie-break
of the original claim is NOT guaranteed
(`offset_pagination_order_counterexample`). -/
theorem offset_pagination_corrected (entries : List Entry) (u : String)
    (page limit : Nat) (l : List Entry)
    (hp : 1 ≤ page) (hl1 : 1 ≤ limit) (hl2 : limit ≤ 100)
    (hl : MongoOffsetOrder entries u l) :
    ∃ op : OffsetPagination,
      (offsetPageOver entries u l page limit).pagination = .offset op ∧
      (offsetPageOver entries u l page limit).items =
        ((l.drop ((page - 1) * limit)).take limit).map MyListService.mapToListItemData ∧
      op.page = page ∧ op.limit = limit ∧
      op.totalItems = (entries.filter (fun e => e.user_id = u)).length ∧
      op.totalItems ≤ op.totalPages * limit ∧
      (∀ n, op.totalItems ≤ n * limit → op.totalPages ≤ n) ∧
      op.hasNextPage = decide (page < op.totalPages) ∧
      op.hasPrevPage = decide (1 < page) ∧
      (op.totalPages < page → (offsetPageOver entries u l page limit).items = []) ∧
      (∀ d ∈ (l.drop ((page - 1) * limit)).take limit, d.user_id = u) ∧
      ((l.drop ((page - 1) * limit)).take limit).Pairwise
        (fun a b => b.added_at ≤ a.added_at) ∧
      (((entries.filter (fun e => e.user_id = u)).map Entry.added_at).Nodup →
        l = canonicalList entries u ∧
        offsetPageOver entries u l page limit =
          MyListService.getListWithOffsetPagination entries u page limit) := by
  obtain ⟨hperm, hsorted⟩ := hl
  refine ⟨⟨page, limit,
    (entries.filter (fun e => e.user_id = u)).length,
    ((entries.filter (fun e => e.user_id = u)).length + limit - 1) / limit,
    decide (page < ((entries.filter (fun e => e.user_id = u)).length + limit - 1) / limit),
    decide (1 < page)⟩, rfl, rfl, rfl, rfl, rfl, ?_, ?_, rfl, rfl, ?_, ?_, ?_, ?_⟩
  · exact ceilDiv_mul_ge _ _ hl1
  · exact fun n hn => ceilDiv_least _ _ n hl1 hn
  · intro hbeyond
    dsimp only at hbeyond
    unfold offsetPageOver
    dsimp only
    have hlen : l.length = (entries.filter (fun e => e.user_id = u)).length :=
      hperm.length_eq
    have hskip : l.length ≤ (page - 1) * limit := by
      have h1 : ((entries.filter (fun e => e.user_id = u)).length + limit - 1) / limit
          ≤ page - 1 := by
        omega
      have h2 := Nat.mul_le_mul_right limit h1
      have h3 := ceilDiv_mul_ge (entries.filter (fun e => e.user_id = u)).length limit hl1
      generalize hm :
        (((entries.filter (fun e => e.user_id = u)).length + limit - 1) / limit) * limit
          = m at *
      generalize hk : (page - 1) * limit = k at *
      omega
    rw [List.drop_eq_nil_of_le hskip]
    simp
  · intro d hd
    have hdl : d ∈ l :=
      ((List.take_sublist _ _).trans (List.drop_sublist _ _)).mem hd
    have := List.mem_filter.mp (hperm.mem_iff.mp hdl)
    simpa using this.2
  · exact hsorted.sublist ((List.take_sublist _ _).trans (List.drop_sublist _ _))
  · intro hn
    have heq := mongoOffsetOrder_eq_canonical ⟨hperm, hsorted⟩ hn
    refine ⟨heq, ?_⟩
    rw [heq]
    unfold offsetPageOver MyListService.getListWithOffsetPagination
    rfl

/-- Witness for C6 (amended): the spec's concrete scenario -- page 2,
limit 2, over 3 entries of one user with distinct `added_at`, fetched in
the one admissible order. -/
theorem offset_pagination_corrected_witness :
    ∃ op : OffsetPagination,
      (offsetPageOver ([⟨1, "u", "a", .movie, 100, "t", "d", [], 0, none, []⟩,
         ⟨2, "u", "b", .movie, 200, "t", "d", [], 0, none, []⟩,
         ⟨3, "u", "c", .movie, 300, "t", "d", [], 0, none, []⟩] : List Entry) "u" ([⟨3, "u", "c", .movie, 300, "t", "d", [], 0, none, []⟩,
         ⟨2, "u", "b", .movie, 200, "t", "d", [], 0, none, []⟩,
         ⟨1, "u", "a", .movie, 100, "t", "d", [], 0, none, []⟩] : List Entry) 2 2).pagination = .offset op ∧
      (offsetPageOver ([⟨1, "u", "a", .movie, 100, "t", "d", [], 0, none, []⟩,
         ⟨2, "u", "b", .movie, 200, "t", "d", [], 0, none, []⟩,
         ⟨3, "u", "c", .movie, 300, "t", "d", [], 0, none, []⟩] : List Entry) "u" ([⟨3, "u", "c", .movie, 300, "t", "d", [], 0, none, []⟩,
         ⟨2, "u", "b", .movie, 200, "t", "d", [], 0, none, []⟩,
         ⟨1, "u", "a", .movie, 100, "t", "d", [], 0, none, []⟩] : List Entry) 2 2).items =
        ((([⟨3, "u", "c", .movie, 300, "t", "d", [], 0, none, []⟩,
         ⟨2, "u", "b", .movie, 200, "t", "d", [], 0, none, []⟩,
         ⟨1, "u", "a", .movie, 100, "t", "d", [], 0, none, []⟩] : List Entry).drop ((2 - 1) * 2)).take 2).map MyListService.mapToListItemData ∧
      op.page = 2 ∧ op.limit = 2 ∧
      op.totalItems = (([⟨1, "u", "a", .movie, 100, "t", "d", [], 0, none, []⟩,
         ⟨2, "u", "b", .movie, 200, "t", "d", [], 0, none, []⟩,
         ⟨3, "u", "c", .movie, 300, "t", "d", [], 0, none, []⟩] : List Entry).filter (fun e => e.user_id = "u")).length ∧
      op.totalItems ≤ op.totalPages * 2 ∧
      (∀ n, op.totalItems ≤ n * 2 → op.totalPages ≤ n) ∧
      op.hasNextPage = decide (2 < op.totalPages) ∧
      op.hasPrevPage = decide (1 < 2) ∧
      (op.totalPages < 2 → (offsetPageOver ([⟨1, "u", "a", .movie, 100, "t", "d", [], 0, none, []⟩,
         ⟨2, "u", "b", .movie, 200, "t", "d", [], 0, none, []⟩,
         ⟨3, "u", "c", .movie, 300, "t", "d", [], 0, none, []⟩] : List Entry) "u" ([⟨3, "u", "c", .movie, 300, "t", "d", [], 0, none, []⟩,
         ⟨2, "u", "b", .movie, 200, "t", "d", [], 0, none, []⟩,
         ⟨1, "u", "a", .movie, 100, "t", "d", [], 0, none, []⟩] : List Entry) 2 2).items = []) ∧
      (∀ d ∈ (([⟨3, "u", "c", .movie, 300, "t", "d", [], 0, none, []⟩,
         ⟨2, "u", "b", .movie, 200, "t", "d", [], 0, none, []⟩,
         ⟨1, "u", "a", .movie, 100, "t", "d", [], 0, none, []⟩] : List Entry).drop ((2 - 1) * 2)).take 2, d.user_id = "u") ∧
      ((([⟨3, "u", "c", .movie, 300, "t", "d", [], 0, none, []⟩,
         ⟨2, "u", "b", .movie, 200, "t", "d", [], 0, none, []⟩,
         ⟨1, "u", "a", .movie, 100, "t", "d", [], 0, none, []⟩] : List Entry).drop ((2 - 1) * 2)).take 2).Pairwise
        (fun a b => b.added_at ≤ a.added_at) ∧
      (((([⟨1, "u", "a", .movie, 100, "t", "d", [], 0, none, []⟩,
         ⟨2, "u", "b", .movie, 200, "t", "d", [], 0, none, []⟩,
         ⟨3, "u", "c", .movie, 300, "t", "d", [], 0, none, []⟩] : List Entry).filter (fun e => e.user_id = "u")).map Entry.added_at).Nodup →
        ([⟨3, "u", "c", .movie, 300, "t", "d", [], 0, none, []⟩,
         ⟨2, "u", "b", .movie, 200, "t", "d", [], 0, none, []⟩,
         ⟨1, "u", "a", .movie, 100, "t", "d", [], 0, none, []⟩] : List Entry) = canonicalList ([⟨1, "u", "a", .movie, 100, "t", "d", [], 0, none, []⟩,
         ⟨2, "u", "b", .movie, 200, "t", "d", [], 0, none, []⟩,
         ⟨3, "u", "c", .movie, 300, "t", "d", [], 0, none, []⟩] : List Entry) "u" ∧
        offsetPageOver ([⟨1, "u", "a", .movie, 100, "t", "d", [], 0, none, []⟩,
         ⟨2, "u", "b", .movie, 200, "t", "d", [], 0, none, []⟩,
         ⟨3, "u", "c", .movie, 300, "t", "d", [], 0, none, []⟩] : List Entry) "u" ([⟨3, "u", "c", .movie, 300, "t", "d", [], 0, none, []⟩,
         ⟨2, "u", "b", .movie, 200, "t", "d", [], 0, none, []⟩,
         ⟨1, "u", "a", .movie, 100, "t", "d", [], 0, none, []⟩] : List Entry) 2 2 =
          MyListService.getListWithOffsetPagination ([⟨1, "u", "a", .movie, 100, "t", "d", [], 0, none, []⟩,
         ⟨2, "u", "b", .movie, 200, "t", "d", [], 0, none, []⟩,
         ⟨3, "u", "c", .movie, 300, "t", "d", [], 0, none, []⟩] : List Entry) "u" 2 2) :=
  offset_pagination_corrected ([⟨1, "u", "a", .movie, 100, "t", "d", [], 0, none, []⟩,
         ⟨2, "u", "b", .movie, 200, "t", "d", [], 0, none, []⟩,
         ⟨3, "u", "c", .movie, 300, "t", "d", [], 0, none, []⟩] : List Entry) "u" 2 2 ([⟨3, "u", "c", .movie, 300, "t", "d", [], 0, none, []⟩,
         ⟨2, "u", "b", .movie, 200, "t", "d", [], 0, none, []⟩,
         ⟨1, "u", "a", .movie, 100, "t", "d", [], 0, none, []⟩] : List Entry)
    (by decide) (by decide) (by decide) (by decide)

/-- Counterexample to C5 as stated: the empty cursor string is a supplied
cursor (`?cursor=` passes the `z.string().optional()` validator), but
`if (cursor)` treats it as absent, so `hasPrevPage` is `false` and
`prevCursor` is `null` instead of echoing the input. -/
theorem cursor_page_shape_counterexample :
    (some "" : Option String).isSome = true ∧
    MyListService.getListWithCursorPagination [] "u" (some "") 10 =
      .ok ⟨[], .cursor ⟨10, none, none, false, false⟩⟩ :=
  ⟨rfl, rfl⟩

/-- C5 (amended): in cursor mode with `limit ≥ 1` and unique `_id`s, a
successful `getListWithCursorPagination` call returns, for the decoded
cursor position `ck` (absent for a missing — or empty — cursor string): the
first `limit` entries of the cursor-filtered canonical sequence (it fetched
`limit+1` to probe for more); `hasNextPage` exactly when a `(limit+1)`-th
matching entry exists; `nextCursor` re-encoding the last returned item's
`(added_at, _id)` when there is a next page and `null` otherwise;
`hasPrevPage` exactly when a nonempty cursor was supplied; and `prevCursor`
echoing the nonempty input cursor (`null` when absent or empty). -/
theorem cursor_page_construction (entries : List Entry) (u : String) (limit : Nat)
    (cursor : Option String) (r : ListResult)
    (hl : 1 ≤ limit) (hn : (entries.map Entry.entryId).Nodup)
    (hok : MyListService.getListWithCursorPagination entries u cursor limit = .ok r) :
    ∃ ck : Option MyListService.CursorKey,
      (CacheService.cursorOrNull cursor = none → ck = none) ∧
      r.items = (((canonicalList entries u).filter (MyListService.cursorFilter ck)).take
        limit).map MyListService.mapToListItemData ∧
      r.pagination = .cursor
        ⟨limit,
          (if limit < ((canonicalList entries u).filter (MyListService.cursorFilter ck)).length
            then (((canonicalList entries u).filter
              (MyListService.cursorFilter ck)).take limit).getLast?.map entryKey
            else none).map (fun k => encodeCursor (msToIso k.1) (Nat.repr k.2)),
          CacheService.cursorOrNull cursor,
          decide (limit <
            ((canonicalList entries u).filter (MyListService.cursorFilter ck)).length),
          (CacheService.cursorOrNull cursor).isSome⟩ := by
  unfold MyListService.getListWithCursorPagination at hok
  dsimp only at hok
  cases hcur : CacheService.cursorOrNull cursor with
  | none =>
    rw [hcur] at hok
    dsimp only at hok
    refine ⟨none, fun _ => rfl, ?_, ?_⟩
    · cases hok; rw [cursorPageCore_eq entries u none limit hn]
    · cases hok; rw [cursorPageCore_eq entries u none limit hn]; rfl
  | some cs =>
    rw [hcur] at hok
    dsimp only at hok
    cases hdc : decodeCursor cs with
    | error e =>
      rw [hdc] at hok
      dsimp only at hok
      cases hok
    | ok dc =>
      rw [hdc] at hok
      dsimp only at hok
      cases hid : dc.id with
      | none =>
        rw [hid] at hok
        dsimp only at hok
        refine ⟨some (dc.addedAtMs, none), by simp, ?_, ?_⟩
        · cases hok; rw [cursorPageCore_eq entries u (some (dc.addedAtMs, none)) limit hn]
        · cases hok; rw [cursorPageCore_eq entries u (some (dc.addedAtMs, none)) limit hn]; rfl
      | some istr =>
        rw [hid] at hok
        dsimp only at hok
        by_cases hes : istr = ""
        · rw [if_pos hes] at hok
          refine ⟨some (dc.addedAtMs, none), by simp, ?_, ?_⟩
          · cases hok; rw [cursorPageCore_eq entries u (some (dc.addedAtMs, none)) limit hn]
          · cases hok; rw [cursorPageCore_eq entries u (some (dc.addedAtMs, none)) limit hn]; rfl
        · rw [if_neg hes] at hok
          cases hpd : parseDec istr.data with
          | none =>
            rw [hpd] at hok
            dsimp only at hok
            cases hok
          | some i =>
            rw [hpd] at hok
            dsimp only at hok
            refine ⟨some (dc.addedAtMs, some i), by simp, ?_, ?_⟩
            · cases hok; rw [cursorPageCore_eq entries u (some (dc.addedAtMs, some i)) limit hn]
            · cases hok; rw [cursorPageCore_eq entries u (some (dc.addedAtMs, some i)) limit hn]; rfl

/-- Witness for C5 (amended): the empty store read with `limit = 1` and no
cursor. -/
theorem cursor_page_construction_witness :
    ∃ ck : Option MyListService.CursorKey,
      (CacheService.cursorOrNull none = none → ck = none) ∧
      (⟨[], .cursor ⟨1, none, none, false, false⟩⟩ : ListResult).items =
        (((canonicalList ([] : List Entry) "u").filter (MyListService.cursorFilter ck)).take
          1).map MyListService.mapToListItemData ∧
      (⟨[], .cursor ⟨1, none, none, false, false⟩⟩ : ListResult).pagination = .cursor
        ⟨1,
          (if 1 < ((canonicalList ([] : List Entry) "u").filter
              (MyListService.cursorFilter ck)).length
            then (((canonicalList ([] : List Entry) "u").filter
              (MyListService.cursorFilter ck)).take 1).getLast?.map entryKey
            else none).map (fun k => encodeCursor (msToIso k.1) (Nat.repr k.2)),
          CacheService.cursorOrNull none,
          decide (1 < ((canonicalList ([] : List Entry) "u").filter
            (MyListService.cursorFilter ck)).length),
          (CacheService.cursorOrNull none).isSome⟩ :=
  cursor_page_construction [] "u" 1 none _ (by decide) (by decide) rfl

theorem b64Val_b64Char : ∀ i, i < 64 → b64Val (b64Char i) = some i := by decide

theorem b64Val_pad : b64Val '=' = none := by decide

theorem b64_roundtrip : ∀ (bytes : List Nat), (∀ b ∈ bytes, b < 256) →
    b64Regroup ((b64Encode bytes).filterMap b64Val) = bytes := by
  intro bytes
  induction bytes using b64Encode.induct with
  | case1 => intro _; rfl
  | case2 b0 =>
    intro h
    have h0 : b0 < 256 := h b0 (by simp)
    simp only [b64Encode, List.filterMap_cons, b64Val_pad,
      b64Val_b64Char _ (by omega : b0 / 4 < 64),
      b64Val_b64Char _ (by omega : b0 % 4 * 16 < 64), List.filterMap_nil]
    unfold b64Regroup
    congr 1
    omega
  | case3 b0 b1 =>
    intro h
    have h0 : b0 < 256 := h b0 (by simp)
    have h1 : b1 < 256 := h b1 (by simp)
    simp only [b64Encode, List.filterMap_cons, b64Val_pad,
      b64Val_b64Char _ (by omega : b0 / 4 < 64),
      b64Val_b64Char _ (by omega : b0 % 4 * 16 + b1 / 16 < 64),
      b64Val_b64Char _ (by omega : b1 % 16 * 4 < 64), List.filterMap_nil]
    unfold b64Regroup
    congr 1
    · omega
    · congr 1
      omega
  | case4 b0 b1 b2 rest ih =>
    intro h
    have h0 : b0 < 256 := h b0 (by simp)
    have h1 : b1 < 256 := h b1 (by simp)
    have h2 : b2 < 256 := h b2 (by simp)
    have hrest : ∀ b ∈ rest, b < 256 := fun b hb => h b (by simp [hb])
    simp only [b64Encode, List.filterMap_cons,
      b64Val_b64Char _ (by omega : b0 / 4 < 64),
      b64Val_b64Char _ (by omega : b0 % 4 * 16 + b1 / 16 < 64),
      b64Val_b64Char _ (by omega : b1 % 16 * 4 + b2 / 64 < 64),
      b64Val_b64Char _ (by omega : b2 % 64 < 64)]
    unfold b64Regroup
    congr 1
    · omega
    · congr 1
      · omega
      · congr 1
        · omega
        · exact ih hrest

theorem parseJStringAux_jsonEscape (s : List Char) : ∀ rest : List Char,
    parseJStringAux false (jsonEscape s ++ '"' :: rest) = some (s, rest) := by
  induction s with
  | nil => intro rest; rfl
  | cons c cs ih =>
    intro rest
    have hesc : jsonEscape (c :: cs) = jsonEscapeChar c ++ jsonEscape cs := by
      simp [jsonEscape]
    rw [hesc]
    by_cases h : c = '"' ∨ c = '\\'
    · rw [jsonEscapeChar, if_pos h]
      simp only [List.cons_append, List.nil_append]
      simp [parseJStringAux, h, ih rest]
    · rw [jsonEscapeChar, if_neg h]
      push_neg at h
      simp only [List.cons_append, List.nil_append]
      simp [parseJStringAux, h.1, h.2, ih rest]

theorem parseJString_jsonEscape (s : List Char) (rest : List Char) :
    parseJString (jsonEscape s ++ '"' :: rest) = some (s, rest) :=
  parseJStringAux_jsonEscape s rest

theorem stripLit_append (p : List Char) : ∀ s : List Char, stripLit p (p ++ s) = some s := by
  induction p with
  | nil => intro s; rfl
  | cons c cs ih =>
    intro s
    simp only [List.cons_append, stripLit, if_pos rfl]
    exact ih s

theorem data_asString (s : String) : s.data.asString = s := rfl

theorem parseCursorJson_cursorJson (a i : String) :
    parseCursorJson (cursorJson a (some i)) = some (a, some i) := by
  have hshape : cursorJson a (some i) =
      "\x7b\"added_at\":\"".data ++ (jsonEscape a.data ++ '"' ::
        (",\"id\":\"".data ++ (jsonEscape i.data ++ '"' :: "\x7d".data))) := by
    simp [cursorJson, List.append_assoc]
  rw [hshape]
  unfold parseCursorJson
  rw [stripLit_append]
  dsimp only
  rw [parseJString_jsonEscape]
  dsimp only
  rw [if_neg (by simp), stripLit_append]
  dsimp only
  rw [parseJString_jsonEscape]
  dsimp only
  rw [if_pos rfl, data_asString, data_asString]

theorem mem_jsonEscape {c : Char} {s : List Char} (h : c ∈ jsonEscape s) : c = '\\' ∨ c ∈ s := by
  induction s with
  | nil => simp [jsonEscape] at h
  | cons d ds ih =>
    have hesc : jsonEscape (d :: ds) = jsonEscapeChar d ++ jsonEscape ds := by
      simp [jsonEscape]
    rw [hesc, List.mem_append] at h
    cases h with
    | inl h1 =>
      unfold jsonEscapeChar at h1
      by_cases hd : d = '"' ∨ d = '\\'
      · rw [if_pos hd] at h1
        simp at h1
        rcases h1 with h1 | h1
        · exact Or.inl h1
        · exact Or.inr (by simp [h1])
      · rw [if_neg hd] at h1
        simp at h1
        exact Or.inr (by simp [h1])
    | inr h2 =>
      rcases ih h2 with h3 | h3
      · exact Or.inl h3
      · exact Or.inr (List.mem_cons_of_mem d h3)

theorem cursorJson_shape (a i : String) :
    cursorJson a (some i) =
      "\x7b\"added_at\":\"".data ++ (jsonEscape a.data ++ '"' ::
        (",\"id\":\"".data ++ (jsonEscape i.data ++ '"' :: "\x7d".data))) := by
  simp [cursorJson, List.append_assoc]

theorem cursorJson_ascii {a i : String} (ha : ∀ c ∈ a.data, c.toNat < 256)
    (hi : ∀ c ∈ i.data, c.toNat < 256) :
    ∀ c ∈ cursorJson a (some i), c.toNat < 256 := by
  intro c hc
  rw [cursorJson_shape] at hc
  have hlit1 : ∀ c ∈ "\x7b\"added_at\":\"".data, c.toNat < 256 := by decide
  have hlit3 : ∀ c ∈ ",\"id\":\"".data, c.toNat < 256 := by decide
  have hlit4 : ∀ c ∈ "\x7d".data, c.toNat < 256 := by decide
  have hbs : ('\\' : Char).toNat < 256 := by decide
  have hq : ('"' : Char).toNat < 256 := by decide
  rcases List.mem_append.mp hc with h | hc2
  · exact hlit1 c h
  rcases List.mem_append.mp hc2 with h | hc3
  · rcases mem_jsonEscape h with h1 | h1
    · rw [h1]; exact hbs
    · exact ha c h1
  rcases List.mem_cons.mp hc3 with h | hc4
  · rw [h]; exact hq
  rcases List.mem_append.mp hc4 with h | hc5
  · exact hlit3 c h
  rcases List.mem_append.mp hc5 with h | hc6
  · rcases mem_jsonEscape h with h1 | h1
    · rw [h1]; exact hbs
    · exact hi c h1
  rcases List.mem_cons.mp hc6 with h | hc7
  · rw [h]; exact hq
  exact hlit4 c hc7

/-- C7: the cursor codec round-trips — decoding an encoded cursor returns
the same `(added_at, id)` structure whenever `added_at` is a valid
ISO-8601 instant (the `isNaN` check passes) — and decoding any input at
all can only fail with a `BadRequest` error: the base64 transform is
lenient, and malformed JSON, a missing `added_at`, or an `added_at` that
does not parse to a valid instant all surface as the `catch` block's
`BadRequestError(INVALID_CURSOR_FORMAT)`.  (The 256-bounds say the cursor
fields are stored in single UTF-8 code units, which every cursor this
system emits — ISO instants and ObjectId strings — satisfies.) -/
theorem cursor_codec_roundtrip :
    (∀ (a i : String) (t : Nat),
      parseIso a = some t →
      (∀ c ∈ a.data, c.toNat < 256) →
      (∀ c ∈ i.data, c.toNat < 256) →
      decodeCursor (encodeCursor a i) = .ok ⟨a, t, some i⟩) ∧
    (∀ (s : String) (e : ApiErr), decodeCursor s = .error e → ∃ m, e = .badRequest m) := by
  constructor
  · intro a i t hiso ha hi
    unfold encodeCursor decodeCursor
    have hdec : b64DecodeLenient
        ((b64Encode ((cursorJson a (some i)).map Char.toNat)).asString).data =
        (cursorJson a (some i)).map Char.toNat := by
      have hbytes : ∀ b ∈ (cursorJson a (some i)).map Char.toNat, b < 256 := by
        intro b hb
        rcases List.mem_map.mp hb with ⟨c, hc, rfl⟩
        exact cursorJson_ascii ha hi c hc
      exact b64_roundtrip _ hbytes
    have hofnat : ((cursorJson a (some i)).map Char.toNat).map Char.ofNat =
        cursorJson a (some i) := by
      rw [List.map_map]
      have hid : (Char.ofNat ∘ Char.toNat) = id := funext Char.ofNat_toNat
      rw [hid, List.map_id]
    dsimp only
    rw [hdec, hofnat, parseCursorJson_cursorJson]
    dsimp only
    rw [hiso]
  · intro s e hdec
    unfold decodeCursor at hdec
    dsimp only at hdec
    cases hpj : parseCursorJson ((b64DecodeLenient s.data).map Char.ofNat) with
    | none =>
      rw [hpj] at hdec
      dsimp only at hdec
      cases hdec
      exact ⟨"INVALID_CURSOR_FORMAT", rfl⟩
    | some p =>
      rw [hpj] at hdec
      dsimp only at hdec
      cases hiso : parseIso p.1 with
      | none =>
        rw [hiso] at hdec
        dsimp only at hdec
        cases hdec
        exact ⟨"INVALID_CURSOR_FORMAT", rfl⟩
      | some t =>
        rw [hiso] at hdec
        dsimp only at hdec
        cases hdec

/-- Witness for C7: a concrete instant and id round-trip, and a garbage
cursor decodes to a BadRequest. -/
theorem cursor_codec_roundtrip_witness :
    decodeCursor (encodeCursor "1970-01-01T00:00:00.300Z" "3") =
      .ok ⟨"1970-01-01T00:00:00.300Z", 300, some "3"⟩ ∧
    ∃ m, ApiErr.badRequest "INVALID_CURSOR_FORMAT" = ApiErr.badRequest m :=
  ⟨cursor_codec_roundtrip.1 "1970-01-01T00:00:00.300Z" "3" 300 (by decide)
      (by decide) (by decide),
    cursor_codec_roundtrip.2 "###" (.badRequest "INVALID_CURSOR_FORMAT") rfl⟩

theorem toDigitsCore_acc (f : Nat) : ∀ (n : Nat) (acc : List Char),
    Nat.toDigitsCore 10 f n acc = Nat.toDigitsCore 10 f n [] ++ acc := by
  induction f with
  | zero => intro n acc; rfl
  | succ f ih =>
    intro n acc
    unfold Nat.toDigitsCore
    by_cases h : n / 10 = 0
    · simp [h]
    · simp only [h, if_false]
      rw [ih (n / 10) [Nat.digitChar (n % 10)], ih (n / 10) (Nat.digitChar (n % 10) :: acc),
        List.append_assoc]
      rfl

/-- Numeric value of a digit string (most significant first). -/
def digitsVal (l : List Char) : Nat := l.foldl (fun a c => a * 10 + (c.toNat - 48)) 0

theorem digitsVal_acc (l : List Char) : ∀ a : Nat,
    l.foldl (fun a c => a * 10 + (c.toNat - 48)) a =
      a * 10 ^ l.length + digitsVal l := by
  induction l with
  | nil => intro a; simp [digitsVal]
  | cons c cs ih =>
    intro a
    simp only [List.foldl_cons, digitsVal]
    rw [ih (a * 10 + (c.toNat - 48)), ih (0 * 10 + (c.toNat - 48))]
    simp only [List.length_cons]
    ring

theorem digitChar_val {k : Nat} (h : k < 10) : (Nat.digitChar k).toNat - 48 = k := by
  interval_cases k <;> decide

theorem digitsVal_toDigitsCore (f : Nat) : ∀ n : Nat, n < 10 ^ f →
    digitsVal (Nat.toDigitsCore 10 f n []) = n := by
  induction f with
  | zero => intro n h; interval_cases n; rfl
  | succ f ih =>
    intro n h
    unfold Nat.toDigitsCore
    by_cases h0 : n / 10 = 0
    · simp only [h0, if_true]
      have hn : n < 10 := by omega
      simp [digitsVal, digitChar_val (Nat.mod_lt n (by omega) : n % 10 < 10)]
      omega
    · simp only [h0, if_false]
      rw [toDigitsCore_acc f (n / 10) [Nat.digitChar (n % 10)]]
      have hdiv : n / 10 < 10 ^ f := by
        rw [Nat.div_lt_iff_lt_mul (by omega)]
        calc n < 10 ^ (f + 1) := h
        _ = 10 ^ f * 10 := by ring
      unfold digitsVal
      rw [List.foldl_append]
      have hfold := digitsVal_acc [Nat.digitChar (n % 10)]
        (List.foldl (fun a c => a * 10 + (c.toNat - 48)) 0 (Nat.toDigitsCore 10 f (n / 10) []))
      rw [hfold]
      have hval : digitsVal (Nat.toDigitsCore 10 f (n / 10) []) = n / 10 := ih (n / 10) hdiv
      unfold digitsVal at hval
      rw [hval]
      simp [digitsVal, digitChar_val (Nat.mod_lt n (by omega) : n % 10 < 10)]
      omega

theorem digitsVal_repr (n : Nat) : digitsVal (Nat.repr n).data = n := by
  have hshape : (Nat.repr n).data = Nat.toDigitsCore 10 (n + 1) n [] := rfl
  rw [hshape]
  apply digitsVal_toDigitsCore
  calc n < 10 ^ n := Nat.lt_pow_self (by norm_num) n
  _ ≤ 10 ^ (n + 1) := Nat.pow_le_pow_right (by norm_num) (Nat.le_succ n)

theorem natRepr_inj {m n : Nat} (h : Nat.repr m = Nat.repr n) : m = n := by
  have := congrArg (fun s => digitsVal s.data) h
  simpa [digitsVal_repr] using this

theorem toDigitsCore_digit (f : Nat) : ∀ n : Nat, ∀ c ∈ Nat.toDigitsCore 10 f n [], c.isDigit = true := by
  induction f with
  | zero => intro n c hc; cases hc
  | succ f ih =>
    intro n c hc
    have hd : (Nat.digitChar (n % 10)).isDigit = true := by
      have : n % 10 < 10 := Nat.mod_lt n (by omega)
      interval_cases h : n % 10 <;> decide
    unfold Nat.toDigitsCore at hc
    by_cases h0 : n / 10 = 0
    · simp only [h0, if_true] at hc
      rcases List.mem_singleton.mp hc with rfl
      exact hd
    · simp only [h0, if_false] at hc
      rw [toDigitsCore_acc f (n / 10) [Nat.digitChar (n % 10)]] at hc
      rcases List.mem_append.mp hc with h1 | h1
      · exact ih (n / 10) c h1
      · rcases List.mem_singleton.mp h1 with rfl
        exact hd

theorem repr_no_colon (n : Nat) : ∀ c ∈ (Nat.repr n).data, c ≠ ':' := by
  intro c hc
  have hshape : (Nat.repr n).data = Nat.toDigitsCore 10 (n + 1) n [] := rfl
  rw [hshape] at hc
  have := toDigitsCore_digit (n + 1) n c hc
  intro hcontra
  rw [hcontra] at this
  exact absurd this (by decide)

theorem colon_cancel : ∀ {a : List Char} {b t₁ t₂ : List Char},
    (∀ c ∈ a, c ≠ ':') → (∀ c ∈ b, c ≠ ':') →
    a ++ ':' :: t₁ = b ++ ':' :: t₂ → a = b ∧ t₁ = t₂ := by
  intro a
  induction a with
  | nil =>
    intro b t₁ t₂ _ hb h
    cases b with
    | nil => simpa using h
    | cons d ds =>
      exfalso
      simp only [List.nil_append, List.cons_append, List.cons.injEq] at h
      exact hb d (by simp) h.1.symm
  | cons c cs ih =>
    intro b t₁ t₂ ha hb h
    cases b with
    | nil =>
      exfalso
      simp only [List.nil_append, List.cons_append, List.cons.injEq] at h
      exact ha c (by simp) h.1
    | cons d ds =>
      simp only [List.cons_append, List.cons.injEq] at h
      obtain ⟨rfl, h2⟩ := h
      obtain ⟨h3, h4⟩ := ih (fun x hx => ha x (by simp [hx])) (fun x hx => hb x (by simp [hx])) h2
      exact ⟨by rw [h3], h4⟩

theorem string_of_data_eq {s t : String} (h : s.data = t.data) : s = t := by
  have := congrArg List.asString h
  rwa [data_asString, data_asString] at this

/-- Counterexample to C2 as stated: the key derivation is not injective.
A supplied cursor equal to the literal string `"first"` collides with the
absent cursor for the same user, mode and limit; and a userId containing
colons collides across modes with a different user's cursor key. -/
theorem cache_key_counterexample :
    CacheService.getCacheKey "A" .cursor ⟨none, some "first", 10⟩ =
      CacheService.getCacheKey "A" .cursor ⟨none, none, 10⟩ ∧
    (some "first" : Option String) ≠ none ∧
    CacheService.getCacheKey "A:cursor:X" .offset ⟨some 1, none, 2⟩ =
      CacheService.getCacheKey "A" .cursor ⟨none, some "X:offset:page:1", 2⟩ ∧
    ("A:cursor:X" : String) ≠ "A" :=
  ⟨rfl, by decide, by decide, by decide⟩

/-- C2 (amended): cache-key derivation is a pure function of
`(userId, mode, effective parameters)` — identical effective parameters
give identical keys — and it is injective provided the userId contains no
`:` and any supplied cursor is nonempty, not the literal `"first"`, and
colon-free (every cursor the system itself hands out is base64 text, which
satisfies this).  Without those provisos the claim fails
(`cache_key_counterexample`): `cursor = "first"` collides with the absent
cursor and colon-laden userIds collide across modes.  Effective parameters
are `page || 1` with `limit` in offset mode and `cursor || null` with
`limit` in cursor mode. -/
theorem cache_key_deterministic_injective :
    (∀ (u : String) (t : PaginationType) (p₁ p₂ : CacheService.KeyParams),
      CacheService.pageOrOne p₁.page = CacheService.pageOrOne p₂.page →
      CacheService.cursorOrNull p₁.cursor = CacheService.cursorOrNull p₂.cursor →
      p₁.limit = p₂.limit →
      CacheService.getCacheKey u t p₁ = CacheService.getCacheKey u t p₂) ∧
    (∀ (u₁ u₂ : String) (t₁ t₂ : PaginationType) (p₁ p₂ : CacheService.KeyParams),
      (∀ c ∈ u₁.data, c ≠ ':') → (∀ c ∈ u₂.data, c ≠ ':') →
      (∀ s, CacheService.cursorOrNull p₁.cursor = some s →
        s ≠ "first" ∧ ∀ c ∈ s.data, c ≠ ':') →
      (∀ s, CacheService.cursorOrNull p₂.cursor = some s →
        s ≠ "first" ∧ ∀ c ∈ s.data, c ≠ ':') →
      CacheService.getCacheKey u₁ t₁ p₁ = CacheService.getCacheKey u₂ t₂ p₂ →
      u₁ = u₂ ∧ t₁ = t₂ ∧ p₁.limit = p₂.limit ∧
        (t₁ = .offset → CacheService.pageOrOne p₁.page = CacheService.pageOrOne p₂.page) ∧
        (t₁ = .cursor → CacheService.cursorOrNull p₁.cursor = CacheService.cursorOrNull p₂.cursor)) := by
  constructor
  · intro u t p₁ p₂ hpage hcur hlim
    cases t with
    | offset =>
      unfold CacheService.getCacheKey CacheService.getOffsetCacheKey
      rw [hpage, hlim]
    | cursor =>
      unfold CacheService.getCacheKey CacheService.getCursorCacheKey
      rw [hcur, hlim]
  · intro u₁ u₂ t₁ t₂ p₁ p₂ hu₁ hu₂ hc₁ hc₂ hkey
    have hdata := congrArg String.data hkey
    have hne : ∀ {c : Option String} {s : String},
        CacheService.cursorOrNull c = some s → s ≠ "" := by
      intro c s h
      cases c with
      | none => cases h
      | some c' =>
        simp only [CacheService.cursorOrNull] at h
        by_cases he : c' = ""
        · rw [if_pos he] at h; cases h
        · rw [if_neg he] at h
          cases h
          exact he
    cases t₁ <;> cases t₂ <;>
      unfold CacheService.getCacheKey CacheService.getOffsetCacheKey
        CacheService.getCursorCacheKey at hdata
    · -- offset / offset
      simp only [String.data_append, List.append_assoc, List.cons_append, List.nil_append,
        List.cons.injEq, true_and] at hdata
      obtain ⟨hu, htail⟩ := colon_cancel hu₁ hu₂ hdata
      simp only [List.cons.injEq, true_and] at htail
      obtain ⟨hp, htail2⟩ := colon_cancel (repr_no_colon _) (repr_no_colon _) htail
      simp only [List.cons.injEq, true_and] at htail2
      refine ⟨string_of_data_eq hu, rfl, natRepr_inj (string_of_data_eq htail2), ?_, ?_⟩
      · intro _
        exact natRepr_inj (string_of_data_eq hp)
      · intro hcontra
        exact nomatch hcontra
    · -- offset / cursor: impossible, the segment after the userId differs
      exfalso
      simp only [String.data_append, List.append_assoc, List.cons_append, List.nil_append,
        List.cons.injEq, true_and] at hdata
      obtain ⟨_, htail⟩ := colon_cancel hu₁ hu₂ hdata
      simp at htail
    · -- cursor / offset: impossible
      exfalso
      simp only [String.data_append, List.append_assoc, List.cons_append, List.nil_append,
        List.cons.injEq, true_and] at hdata
      obtain ⟨_, htail⟩ := colon_cancel hu₁ hu₂ hdata
      simp at htail
    · -- cursor / cursor
      have hfirst : ∀ c ∈ ("first" : String).data, c ≠ ':' := by decide
      cases hq₁ : CacheService.cursorOrNull p₁.cursor with
      | none =>
        cases hq₂ : CacheService.cursorOrNull p₂.cursor with
        | none =>
          rw [hq₁, hq₂] at hdata
          simp only [String.data_append, List.append_assoc, List.cons_append, List.nil_append,
            List.cons.injEq, true_and] at hdata
          obtain ⟨hu, htail⟩ := colon_cancel hu₁ hu₂ hdata
          simp only [List.cons.injEq, true_and] at htail
          refine ⟨string_of_data_eq hu, rfl, natRepr_inj (string_of_data_eq htail), ?_, ?_⟩
          · intro hcontra
            cases hcontra
          · intro _
            rfl
        | some s₂ =>
          exfalso
          rw [hq₁, hq₂] at hdata
          dsimp only at hdata
          rw [if_neg (hne hq₂)] at hdata
          simp only [String.data_append, List.append_assoc, List.cons_append, List.nil_append,
            List.cons.injEq, true_and] at hdata
          obtain ⟨_, htail⟩ := colon_cancel hu₁ hu₂ hdata
          simp only [List.cons.injEq, true_and] at htail
          obtain ⟨hpart, _⟩ := colon_cancel hfirst (hc₂ s₂ hq₂).2 htail
          exact (hc₂ s₂ hq₂).1 (string_of_data_eq hpart).symm
      | some s₁ =>
        cases hq₂ : CacheService.cursorOrNull p₂.cursor with
        | none =>
          exfalso
          rw [hq₁, hq₂] at hdata
          dsimp only at hdata
          rw [if_neg (hne hq₁)] at hdata
          simp only [String.data_append, List.append_assoc, List.cons_append, List.nil_append,
            List.cons.injEq, true_and] at hdata
          obtain ⟨_, htail⟩ := colon_cancel hu₁ hu₂ hdata
          simp only [List.cons.injEq, true_and] at htail
          obtain ⟨hpart, _⟩ := colon_cancel (hc₁ s₁ hq₁).2 hfirst htail
          exact (hc₁ s₁ hq₁).1 (string_of_data_eq hpart)
        | some s₂ =>
          rw [hq₁, hq₂] at hdata
          dsimp only at hdata
          rw [if_neg (hne hq₁), if_neg (hne hq₂)] at hdata
          simp only [String.data_append, List.append_assoc, List.cons_append, List.nil_append,
            List.cons.injEq, true_and] at hdata
          obtain ⟨hu, htail⟩ := colon_cancel hu₁ hu₂ hdata
          simp only [List.cons.injEq, true_and] at htail
          obtain ⟨hpart, htail2⟩ := colon_cancel (hc₁ s₁ hq₁).2 (hc₂ s₂ hq₂).2 htail
          simp only [List.cons.injEq, true_and] at htail2
          refine ⟨string_of_data_eq hu, rfl, natRepr_inj (string_of_data_eq htail2), ?_, ?_⟩
          · intro hcontra
            cases hcontra
          · intro _
            rw [string_of_data_eq hpart]

/-- Witness for C2 (amended): determinism across a falsy cursor, and
injectivity at a concrete cursor-mode key. -/
theorem cache_key_deterministic_injective_witness :
    CacheService.getCacheKey "u" .offset ⟨some 2, none, 10⟩ =
      CacheService.getCacheKey "u" .offset ⟨some 2, some "", 10⟩ ∧
    ("u" : String) = "u" ∧ PaginationType.cursor = PaginationType.cursor ∧
      (⟨none, some "abc", 10⟩ : CacheService.KeyParams).limit =
        (⟨none, some "abc", 10⟩ : CacheService.KeyParams).limit ∧
      (PaginationType.cursor = .offset →
        CacheService.pageOrOne (⟨none, some "abc", 10⟩ : CacheService.KeyParams).page =
          CacheService.pageOrOne (⟨none, some "abc", 10⟩ : CacheService.KeyParams).page) ∧
      (PaginationType.cursor = .cursor →
        CacheService.cursorOrNull (⟨none, some "abc", 10⟩ : CacheService.KeyParams).cursor =
          CacheService.cursorOrNull (⟨none, some "abc", 10⟩ : CacheService.KeyParams).cursor) :=
  ⟨cache_key_deterministic_injective.1 "u" .offset ⟨some 2, none, 10⟩ ⟨some 2, some "", 10⟩
      rfl rfl rfl,
    cache_key_deterministic_injective.2 "u" "u" .cursor .cursor
      ⟨none, some "abc", 10⟩ ⟨none, some "abc", 10⟩
      (by decide) (by decide)
      (by
        intro s h
        rw [show CacheService.cursorOrNull (some "abc") = some "abc" from rfl] at h
        cases h
        exact ⟨by decide, by decide⟩)
      (by
        intro s h
        rw [show CacheService.cursorOrNull (some "abc") = some "abc" from rfl] at h
        cases h
        exact ⟨by decide, by decide⟩)
      rfl⟩

theorem globMatch_star : ∀ s : List Char, globMatch ['*'] s = true := by
  intro s
  induction s with
  | nil => simp [globMatch]
  | cons c s' ih => simp [globMatch, ih]

theorem globMatch_star_cons {p : List Char} {s : List Char} (h : globMatch p s = true) :
    globMatch ('*' :: p) s = true := by
  cases s with
  | nil => simp [globMatch, h]
  | cons c s' => simp [globMatch, h]

/-- The pattern `q ++ "*"` matches `q ++ r` for any `q` (glob
metacharacters inside `q` included) — a user's own cache keys always fall
under that user's invalidation pattern. -/
theorem globMatch_append_star : ∀ (q r : List Char), globMatch (q ++ ['*']) (q ++ r) = true := by
  intro q
  induction q with
  | nil => intro r; simpa using globMatch_star r
  | cons c q' ih =>
    intro r
    by_cases h1 : c = '*'
    · subst h1
      simp only [List.cons_append]
      simp [globMatch, globMatch_star_cons (ih r)]
    · by_cases h2 : c = '?'
      · subst h2
        simp only [List.cons_append]
        simp [globMatch, ih r]
      · simp only [List.cons_append]
        simp [globMatch, h1, h2, ih r]

/-- For a metacharacter-free `q`, the pattern `q ++ "*"` matches exactly
the strings with prefix `q`. -/
theorem globMatch_prefix_iff {q : List Char} (hq : ∀ c ∈ q, c ≠ '*' ∧ c ≠ '?') :
    ∀ s, globMatch (q ++ ['*']) s = true ↔ q <+: s := by
  induction q with
  | nil =>
    intro s
    simp [globMatch_star s, List.nil_prefix]
  | cons c q' ih =>
    intro s
    have hc := hq c (by simp)
    have ih' := ih (fun x hx => hq x (List.mem_cons_of_mem c hx))
    cases s with
    | nil =>
      simp only [List.cons_append]
      constructor
      · intro h
        exfalso
        simp [globMatch, hc.1] at h
      · intro h
        exact absurd h (by simp)
    | cons d s' =>
      simp only [List.cons_append]
      by_cases hcd : c = d
      · subst hcd
        rw [List.cons_prefix_cons]
        simp [globMatch, hc.1, hc.2, ih' s']
      · rw [List.cons_prefix_cons]
        simp [globMatch, hc.1, hc.2, hcd]

theorem colon_prefix : ∀ {a b : List Char} {r : List Char},
    (∀ c ∈ a, c ≠ ':') → (∀ c ∈ b, c ≠ ':') →
    (a ++ [':']) <+: (b ++ ':' :: r) → a = b := by
  intro a
  induction a with
  | nil =>
    intro b r _ hb h
    cases b with
    | nil => rfl
    | cons d ds =>
      exfalso
      simp only [List.nil_append, List.cons_append, List.cons_prefix_cons] at h
      exact hb d (by simp) h.1.symm
  | cons c cs ih =>
    intro b r ha hb h
    cases b with
    | nil =>
      exfalso
      simp only [List.cons_append, List.nil_append, List.cons_prefix_cons] at h
      exact ha c (by simp) h.1
    | cons d ds =>
      simp only [List.cons_append, List.cons_prefix_cons] at h
      obtain ⟨rfl, h2⟩ := h
      rw [ih (fun x hx => ha x (by simp [hx])) (fun x hx => hb x (by simp [hx])) h2]

theorem lookup_filter {kv : List (String × ListResult)} {f : String × ListResult → Bool}
    {k : String} (hf : ∀ p : String × ListResult, p.1 = k → f p = true) :
    CacheService.lookup (kv.filter f) k = CacheService.lookup kv k := by
  induction kv with
  | nil => rfl
  | cons p kv' ih =>
    unfold CacheService.lookup at ih ⊢
    by_cases hk : p.1 = k
    · rw [List.filter_cons, hf p hk]
      rw [if_pos rfl]
      rw [List.find?_cons_of_pos _ (by simp [hk]), List.find?_cons_of_pos _ (by simp [hk])]
    · rw [List.filter_cons]
      have hskip : List.find? (fun q => decide (q.1 = k)) (p :: kv'.filter f) =
          List.find? (fun q => decide (q.1 = k)) (kv'.filter f) :=
        List.find?_cons_of_neg _ (by simp [hk])
      have hskip2 : List.find? (fun q => decide (q.1 = k)) (p :: kv') =
          List.find? (fun q => decide (q.1 = k)) kv' :=
        List.find?_cons_of_neg _ (by simp [hk])
      by_cases hfp : f p = true
      · rw [hfp]
        rw [if_pos rfl]
        rw [hskip, hskip2]
        exact ih
      · rw [if_neg (by simpa using hfp), hskip2]
        exact ih

/-- Counterexample to C10 as stated: invalidating user `"A"` sweeps the
glob `mylist:A:*`, which also matches every key of the distinct user
`"A:x"` — another user's cached page is destroyed by the mutation. -/
theorem cache_invalidation_frame_counterexample :
    ("A:x" : String) ≠ "A" ∧
    CacheService.invalidateUserCache
      ⟨[(CacheService.getOffsetCacheKey "A:x" 1 10,
          ⟨[], .offset ⟨1, 10, 0, 0, false, false⟩⟩)], false, false, false⟩ "A" =
      ⟨[], false, false, false⟩ := by
  refine ⟨by decide, ?_⟩
  have hmatch : globMatchStr (CacheService.getUserCachePattern "A")
      (CacheService.getOffsetCacheKey "A:x" 1 10) = true := by
    simp [globMatchStr, CacheService.getUserCachePattern, CacheService.getOffsetCacheKey,
      globMatch, globMatch_star]
  unfold CacheService.invalidateUserCache
  rw [if_neg (by decide)]
  dsimp only
  rw [List.filter_cons]
  rw [hmatch]
  rfl

/-- C10 (amended): cache invalidation for user `U` deletes exactly the
keys matching `mylist:U:*` — nothing else is touched, every matching key
goes (when the sweep's transport works), a sweep with zero matching keys
leaves the cache exactly as it was, and the cached pages of any other
user `V` survive `U`'s invalidation provided userIds are colon-free (and
`U` glob-metacharacter-free); without that proviso another user's pages
can be swept (`cache_invalidation_frame_counterexample`). -/
theorem cache_invalidation_frame :
    (∀ (u : String) (cb : CacheBackend) (p : String × ListResult),
      p ∈ cb.kv → p ∉ (CacheService.invalidateUserCache cb u).kv →
      globMatchStr (CacheService.getUserCachePattern u) p.1 = true) ∧
    (∀ (u : String) (cb : CacheBackend) (p : String × ListResult),
      cb.invalidateFails = false → p ∈ cb.kv →
      globMatchStr (CacheService.getUserCachePattern u) p.1 = true →
      p ∉ (CacheService.invalidateUserCache cb u).kv) ∧
    (∀ (u : String) (cb : CacheBackend),
      (∀ p ∈ cb.kv, globMatchStr (CacheService.getUserCachePattern u) p.1 = false) →
      CacheService.invalidateUserCache cb u = cb) ∧
    (∀ (uInv vOther : String) (cb : CacheBackend) (t : PaginationType)
        (params : CacheService.KeyParams),
      (∀ c ∈ uInv.data, c ≠ ':' ∧ c ≠ '*' ∧ c ≠ '?') →
      (∀ c ∈ vOther.data, c ≠ ':') → vOther ≠ uInv →
      CacheService.lookup (CacheService.invalidateUserCache cb uInv).kv
          (CacheService.getCacheKey vOther t params) =
        CacheService.lookup cb.kv (CacheService.getCacheKey vOther t params)) := by
  refine ⟨?_, ?_, ?_, ?_⟩
  · intro u cb p hin hout
    unfold CacheService.invalidateUserCache at hout
    by_cases hfail : cb.invalidateFails = true
    · rw [if_pos hfail] at hout
      exact absurd hin hout
    · rw [if_neg hfail] at hout
      by_contra hglob
      exact hout (List.mem_filter.mpr ⟨hin, by simp [hglob]⟩)
  · intro u cb p hfail hin hglob hout
    unfold CacheService.invalidateUserCache at hout
    rw [if_neg (by simp [hfail])] at hout
    dsimp only at hout
    rcases List.mem_filter.mp hout with ⟨_, hkeep⟩
    rw [hglob] at hkeep
    cases hkeep
  · intro u cb hnone
    unfold CacheService.invalidateUserCache
    by_cases hfail : cb.invalidateFails = true
    · rw [if_pos hfail]
    · rw [if_neg hfail]
      have : cb.kv.filter
          (fun p => !globMatchStr (CacheService.getUserCachePattern u) p.1) = cb.kv :=
        List.filter_eq_self.mpr (fun p hp => by simp [hnone p hp])
      rw [this]
  · intro uInv vOther cb t params hU hV hne
    unfold CacheService.invalidateUserCache
    by_cases hfail : cb.invalidateFails = true
    · rw [if_pos hfail]
    · rw [if_neg hfail]
      dsimp only
      apply lookup_filter
      intro p hp
      rw [hp]
      have hnotmatch : globMatchStr (CacheService.getUserCachePattern uInv)
          (CacheService.getCacheKey vOther t params) = false := by
        by_contra hcontra
        have hglob : globMatch (CacheService.getUserCachePattern uInv).data
            (CacheService.getCacheKey vOther t params).data = true := by
          unfold globMatchStr at hcontra
          revert hcontra
          cases globMatch (CacheService.getUserCachePattern uInv).data
            (CacheService.getCacheKey vOther t params).data
          · intro hcontra; exact absurd rfl hcontra
          · intro _; rfl
        have hqshape : (CacheService.getUserCachePattern uInv).data =
            ("mylist:".data ++ uInv.data ++ [':']) ++ ['*'] := by
          unfold CacheService.getUserCachePattern
          simp [String.data_append, List.append_assoc]
        have hqmeta : ∀ c ∈ "mylist:".data ++ uInv.data ++ [':'], c ≠ '*' ∧ c ≠ '?' := by
          intro c hc
          rcases List.mem_append.mp hc with hc1 | hc1
          · rcases List.mem_append.mp hc1 with hc2 | hc2
            · exact (by decide : ∀ c ∈ "mylist:".data, c ≠ '*' ∧ c ≠ '?') c hc2
            · exact ⟨(hU c hc2).2.1, (hU c hc2).2.2⟩
          · rcases List.mem_singleton.mp hc1 with rfl
            exact ⟨by decide, by decide⟩
        rw [hqshape] at hglob
        have hpref := (globMatch_prefix_iff hqmeta _).mp hglob
        have hkshape : ∃ rest, (CacheService.getCacheKey vOther t params).data =
            "mylist:".data ++ vOther.data ++ ':' :: rest := by
          cases t with
          | offset =>
            refine ⟨("offset:page:" ++ Nat.repr (CacheService.pageOrOne params.page) ++
              ":limit:" ++ Nat.repr params.limit).data, ?_⟩
            unfold CacheService.getCacheKey CacheService.getOffsetCacheKey
            simp [String.data_append, List.append_assoc]
          | cursor =>
            refine ⟨("cursor:" ++ (match CacheService.cursorOrNull params.cursor with
              | some c => if c = "" then "first" else c
              | none => "first") ++ ":limit:" ++ Nat.repr params.limit).data, ?_⟩
            unfold CacheService.getCacheKey CacheService.getCursorCacheKey
            simp [String.data_append, List.append_assoc]
        obtain ⟨rest, hk⟩ := hkshape
        rw [hk] at hpref
        rw [List.append_assoc, List.append_assoc] at hpref
        rw [List.prefix_append_right_inj] at hpref
        have := colon_prefix (fun c hc => (hU c hc).1) hV hpref
        exact hne (string_of_data_eq this).symm
      rw [hnotmatch]
      rfl

/-- Witness for C10 (amended): a zero-match sweep is a no-op, and user
`"B"`'s cached page survives user `"A"`'s invalidation. -/
theorem cache_invalidation_frame_witness :
    CacheService.invalidateUserCache ⟨[], false, false, false⟩ "A" =
      ⟨[], false, false, false⟩ ∧
    CacheService.lookup
        (CacheService.invalidateUserCache
          ⟨[(CacheService.getOffsetCacheKey "B" 1 10,
              ⟨[], .offset ⟨1, 10, 0, 0, false, false⟩⟩)], false, false, false⟩ "A").kv
        (CacheService.getCacheKey "B" .offset ⟨some 1, none, 10⟩) =
      CacheService.lookup
        [(CacheService.getOffsetCacheKey "B" 1 10,
            ⟨[], .offset ⟨1, 10, 0, 0, false, false⟩⟩)]
        (CacheService.getCacheKey "B" .offset ⟨some 1, none, 10⟩) :=
  ⟨cache_invalidation_frame.2.2.1 "A" ⟨[], false, false, false⟩ (fun p hp => nomatch hp),
    cache_invalidation_frame.2.2.2 "A" "B"
      ⟨[(CacheService.getOffsetCacheKey "B" 1 10,
          ⟨[], .offset ⟨1, 10, 0, 0, false, false⟩⟩)], false, false, false⟩ .offset
      ⟨some 1, none, 10⟩ (by decide) (by decide) (by decide)⟩

theorem cacheGet_fails {cache : CacheBackend} (hfail : cache.getFails = true) (k : String) :
    CacheService.get cache k = ⟨none, false⟩ := by
  unfold CacheService.get
  rw [if_pos hfail]

/-- C8: a `listEntries` read never fails because of the cache.  When every
cache `get` raises a transport error (and whatever `set` does — its
failures are swallowed), `getList` behaves exactly like a cache-miss read
of the store: a successful call reports `cacheHit = false` and returns the
store-computed page for its mode, and the only possible failures are the
cursor-mode failures of the store read itself. -/
theorem cache_failure_degrades_to_miss (entries : List Entry) (cache : CacheBackend)
    (u : String) (t : PaginationType) (params : MyListService.GetListParams)
    (hfail : cache.getFails = true) :
    (∀ (r : PaginatedListResult) (cb : CacheBackend),
      MyListService.getList entries cache u t params = .ok (r, cb) →
      r.cacheHit = false ∧
      (t = .offset →
        r.items = (MyListService.getListWithOffsetPagination entries u
          (CacheService.pageOrOne params.page) (MyListService.limitOrTen params.limit)).items ∧
        r.pagination = (MyListService.getListWithOffsetPagination entries u
          (CacheService.pageOrOne params.page)
          (MyListService.limitOrTen params.limit)).pagination) ∧
      (t = .cursor →
        MyListService.getListWithCursorPagination entries u params.cursor
          (MyListService.limitOrTen params.limit) = .ok ⟨r.items, r.pagination⟩)) ∧
    (∀ e : ApiErr,
      MyListService.getList entries cache u t params = .error e →
      t = .cursor ∧
      MyListService.getListWithCursorPagination entries u params.cursor
        (MyListService.limitOrTen params.limit) = .error e) := by
  constructor
  · intro r cb hok
    unfold MyListService.getList at hok
    dsimp only at hok
    rw [cacheGet_fails hfail] at hok
    dsimp only at hok
    cases t with
    | offset =>
      dsimp only at hok
      cases hok
      refine ⟨rfl, ?_, ?_⟩
      · intro _
        exact ⟨rfl, rfl⟩
      · intro hcontra
        cases hcontra
    | cursor =>
      dsimp only at hok
      cases hcur : MyListService.getListWithCursorPagination entries u params.cursor
          (MyListService.limitOrTen params.limit) with
      | error e => rw [hcur] at hok; cases hok
      | ok result =>
        rw [hcur] at hok
        dsimp only at hok
        cases hok
        refine ⟨rfl, ?_, ?_⟩
        · intro hcontra
          cases hcontra
        · intro _
          rfl
  · intro e herr
    unfold MyListService.getList at herr
    dsimp only at herr
    rw [cacheGet_fails hfail] at herr
    dsimp only at herr
    cases t with
    | offset =>
      dsimp only at herr
      cases herr
    | cursor =>
      dsimp only at herr
      cases hcur : MyListService.getListWithCursorPagination entries u params.cursor
          (MyListService.limitOrTen params.limit) with
      | error e' =>
        rw [hcur] at herr
        dsimp only at herr
        cases herr
        refine ⟨rfl, ?_⟩
        rfl
      | ok result =>
        rw [hcur] at herr
        dsimp only at herr
        cases herr

/-- Witness for C8: a failing cache in front of the empty store still
serves the offset page with `cacheHit = false`. -/
theorem cache_failure_degrades_to_miss_witness :
    (false = false ∧
      (PaginationType.offset = .offset →
        ([] : List ListItemData) = (MyListService.getListWithOffsetPagination [] "u"
          (CacheService.pageOrOne (some 1)) (MyListService.limitOrTen (some 10))).items ∧
        Pagination.offset ⟨1, 10, 0, 0, false, false⟩ =
          (MyListService.getListWithOffsetPagination [] "u"
            (CacheService.pageOrOne (some 1)) (MyListService.limitOrTen (some 10))).pagination) ∧
      (PaginationType.offset = .cursor →
        MyListService.getListWithCursorPagination [] "u" none
          (MyListService.limitOrTen (some 10)) =
          .ok ⟨[], Pagination.offset ⟨1, 10, 0, 0, false, false⟩⟩)) :=
  (cache_failure_degrades_to_miss [] ⟨[], true, false, false⟩ "u" .offset ⟨some 1, some 10, none⟩
    rfl).1 ⟨[], .offset ⟨1, 10, 0, 0, false, false⟩, false⟩
    ⟨[(CacheService.getCacheKey "u" .offset ⟨some 1, none, 10⟩,
        ⟨[], .offset ⟨1, 10, 0, 0, false, false⟩⟩)], true, false, false⟩ rfl

theorem addToList_ok_inv {cat : Catalog} {st : MyListState} {u cid : String}
    {ct : ContentType} {now nid : Nat} {item : ListItemData} {st' : MyListState}
    (h : MyListService.addToList cat st u cid ct now nid = .ok (item, st')) :
    hasPair st.entries u cid = false ∧
    ∃ c, resolveContent cat cid ct now = .ok c ∧
      item = MyListService.mapToListItemData (newEntry u cid ct now nid c) ∧
      st' = ⟨st.entries ++ [newEntry u cid ct now nid c],
        CacheService.invalidateUserCache st.cache u⟩ := by
  unfold MyListService.addToList at h
  by_cases hp : hasPair st.entries u cid = true
  · rw [if_pos hp] at h
    cases h
  · have hp' : hasPair st.entries u cid = false := by simpa using hp
    rw [if_neg (by simp [hp'])] at h
    cases hr : resolveContent cat cid ct now with
    | error e => rw [hr] at h; cases h
    | ok c =>
      rw [hr] at h
      dsimp only at h
      cases h
      exact ⟨hp', c, rfl, rfl, rfl⟩

theorem removeFromList_ok_inv {st : MyListState} {u cid : String} {st' : MyListState}
    (h : MyListService.removeFromList st u cid = .ok st') :
    hasPair st.entries u cid = true ∧
    st' = ⟨st.entries.eraseP (fun e => e.user_id = u && e.content_id = cid),
      CacheService.invalidateUserCache st.cache u⟩ := by
  unfold MyListService.removeFromList at h
  by_cases hp : hasPair st.entries u cid = true
  · rw [if_pos hp] at h
    cases h
    exact ⟨hp, rfl⟩
  · rw [if_neg hp] at h
    cases h

theorem hasPair_false_iff {entries : List Entry} {u cid : String} :
    hasPair entries u cid = false ↔
      ∀ e ∈ entries, ¬(e.user_id = u ∧ e.content_id = cid) := by
  unfold hasPair
  rw [← Bool.not_eq_true, List.any_eq_true]
  constructor
  · intro h e he hcontra
    exact h ⟨e, he, by simp [hcontra.1, hcontra.2]⟩
  · rintro h ⟨e, he, hb⟩
    simp only [Bool.and_eq_true, decide_eq_true_eq] at hb
    exact h e he hb

/-- The store invariants every reachable state satisfies: at most one
document per `(user_id, content_id)` pair, and collection-unique `_id`s. -/
theorem reachable_inv {cat : Catalog} {st : MyListState} (h : Reachable cat st) :
    PairUnique st.entries ∧ (st.entries.map Entry.entryId).Nodup := by
  induction h with
  | init cache => exact ⟨List.Pairwise.nil, List.nodup_nil⟩
  | add hr hfresh hstep ih =>
    obtain ⟨hp, c, _, _, hst⟩ := addToList_ok_inv hstep
    subst hst
    constructor
    · rw [PairUnique, List.pairwise_append]
      refine ⟨ih.1, List.pairwise_singleton _ _, ?_⟩
      intro a ha b hb
      rcases List.mem_singleton.mp hb with rfl
      have := hasPair_false_iff.mp hp a ha
      simpa [newEntry] using this
    · rw [List.map_append, List.nodup_append]
      refine ⟨ih.2, by simp, ?_⟩
      intro x hx
      simp only [List.map_cons, List.map_nil, newEntry] at *
      rcases List.mem_map.mp hx with ⟨e, he, rfl⟩
      simp only [List.mem_singleton]
      intro hcontra
      exact hfresh e he hcontra
  | remove hr hstep ih =>
    obtain ⟨hp, hst⟩ := removeFromList_ok_inv hstep
    subst hst
    constructor
    · exact ih.1.sublist (List.eraseP_sublist _)
    · exact ((List.eraseP_sublist _).map Entry.entryId).nodup ih.2
  | list hr hstep ih => exact ih

/-- C4: every reachable store state holds at most one entry per
`(userId, contentId)` pair, and an `addEntry` for a pair that already has
an entry fails with Conflict leaving the state untouched — it never
overwrites or duplicates. -/
theorem pair_uniqueness_invariant (cat : Catalog) (st : MyListState)
    (h : Reachable cat st) :
    PairUnique st.entries ∧
    (∀ (u cid : String) (ct : ContentType) (now nid : Nat),
      hasPair st.entries u cid = true →
      MyListService.addToList cat st u cid ct now nid =
        .error (.conflict "ITEM_ALREADY_IN_LIST")) := by
  refine ⟨(reachable_inv h).1, ?_⟩
  intro u cid ct now nid hp
  unfold MyListService.addToList
  rw [if_pos hp]

/-- Witness for C4: the state reached by one successful add; a second add
for the same pair is rejected with Conflict. -/
theorem pair_uniqueness_invariant_witness :
    PairUnique [newEntry "u" "m1" .movie 100 1 ⟨"t", "d", ["Action"], 5, some "dir", ["a"]⟩] ∧
    (∀ (u cid : String) (ct : ContentType) (now nid : Nat),
      hasPair [newEntry "u" "m1" .movie 100 1 ⟨"t", "d", ["Action"], 5, some "dir", ["a"]⟩]
        u cid = true →
      MyListService.addToList
        ⟨fun c => if c = "m1" then some ⟨"t", "d", ["Action"], 5, "dir", ["a"]⟩ else none,
          fun _ => none⟩
        ⟨[newEntry "u" "m1" .movie 100 1 ⟨"t", "d", ["Action"], 5, some "dir", ["a"]⟩],
          ⟨[], false, false, false⟩⟩ u cid ct now nid =
        .error (.conflict "ITEM_ALREADY_IN_LIST")) :=
  pair_uniqueness_invariant
    ⟨fun c => if c = "m1" then some ⟨"t", "d", ["Action"], 5, "dir", ["a"]⟩ else none,
      fun _ => none⟩
    ⟨[newEntry "u" "m1" .movie 100 1 ⟨"t", "d", ["Action"], 5, some "dir", ["a"]⟩],
      ⟨[], false, false, false⟩⟩
    (Reachable.add (Reachable.init ⟨[], false, false, false⟩) (fun e he => nomatch he)
    (show MyListService.addToList
        ⟨fun c => if c = "m1" then some ⟨"t", "d", ["Action"], 5, "dir", ["a"]⟩ else none,
          fun _ => none⟩
        ⟨[], ⟨[], false, false, false⟩⟩ "u" "m1" .movie 100 1 =
      .ok (MyListService.mapToListItemData
          (newEntry "u" "m1" .movie 100 1 ⟨"t", "d", ["Action"], 5, some "dir", ["a"]⟩),
        ⟨[newEntry "u" "m1" .movie 100 1 ⟨"t", "d", ["Action"], 5, some "dir", ["a"]⟩],
          ⟨[], false, false, false⟩⟩) from rfl))

theorem lookup_filter_none {kv : List (String × ListResult)} {f : String × ListResult → Bool}
    {k : String} (hf : ∀ p : String × ListResult, p.1 = k → f p = false) :
    CacheService.lookup (kv.filter f) k = none := by
  induction kv with
  | nil => rfl
  | cons p kv' ih =>
    rw [List.filter_cons]
    by_cases hk : p.1 = k
    · rw [hf p hk]
      simpa using ih
    · by_cases hfp : f p = true
      · rw [hfp]
        simp only [if_true]
        unfold CacheService.lookup at ih ⊢
        rw [List.find?_cons_of_neg _ (by simp [hk])]
        exact ih
      · rw [if_neg (by simpa using hfp)]
        exact ih

/-- Every cache key `getCacheKey` derives for a user matches that user's
invalidation pattern. -/
theorem userPattern_matches_own_key (u : String) (t : PaginationType)
    (params : CacheService.KeyParams) :
    globMatchStr (CacheService.getUserCachePattern u)
      (CacheService.getCacheKey u t params) = true := by
  unfold globMatchStr
  have hpat : (CacheService.getUserCachePattern u).data =
      ("mylist:".data ++ u.data ++ [':']) ++ ['*'] := by
    unfold CacheService.getUserCachePattern
    simp [String.data_append, List.append_assoc]
  rw [hpat]
  cases t with
  | offset =>
    have hkey : (CacheService.getCacheKey u .offset params).data =
        ("mylist:".data ++ u.data ++ [':']) ++
          ("offset:page:" ++ Nat.repr (CacheService.pageOrOne params.page) ++ ":limit:" ++
            Nat.repr params.limit).data := by
      unfold CacheService.getCacheKey CacheService.getOffsetCacheKey
      simp [String.data_append, List.append_assoc]
    rw [hkey]
    exact globMatch_append_star _ _
  | cursor =>
    have hkey : (CacheService.getCacheKey u .cursor params).data =
        ("mylist:".data ++ u.data ++ [':']) ++
          ("cursor:" ++ (match CacheService.cursorOrNull params.cursor with
            | some c => if c = "" then "first" else c
            | none => "first") ++ ":limit:" ++ Nat.repr params.limit).data := by
      unfold CacheService.getCacheKey CacheService.getCursorCacheKey
      simp [String.data_append, List.append_assoc]
    rw [hkey]
    exact globMatch_append_star _ _

/-- A read issued right after an invalidation sweep for the same user
misses the cache. -/
theorem getList_after_invalidate {entries : List Entry} {cb : CacheBackend} {u : String}
    {t : PaginationType} {params : MyListService.GetListParams} {r : PaginatedListResult}
    {cb' : CacheBackend} (hfail : cb.invalidateFails = false)
    (hok : MyListService.getList entries (CacheService.invalidateUserCache cb u) u t params =
      .ok (r, cb')) :
    r.cacheHit = false := by
  have hmiss : CacheService.get (CacheService.invalidateUserCache cb u)
      (CacheService.getCacheKey u t ⟨params.page, params.cursor,
        MyListService.limitOrTen params.limit⟩) = ⟨none, false⟩ := by
    unfold CacheService.invalidateUserCache
    rw [if_neg (by simp [hfail])]
    unfold CacheService.get
    by_cases hg : cb.getFails = true
    · rw [if_pos hg]
    · rw [if_neg hg]
      dsimp only
      rw [lookup_filter_none (fun p hp => by
        rw [hp, userPattern_matches_own_key u t
          ⟨params.page, params.cursor, MyListService.limitOrTen params.limit⟩]
        rfl)]
  unfold MyListService.getList at hok
  dsimp only at hok
  rw [hmiss] at hok
  dsimp only at hok
  cases t with
  | offset =>
    dsimp only at hok
    cases hok
    rfl
  | cursor =>
    dsimp only at hok
    cases hcur : MyListService.getListWithCursorPagination entries u params.cursor
        (MyListService.limitOrTen params.limit) with
    | error e => rw [hcur] at hok; cases hok
    | ok result =>
      rw [hcur] at hok
      dsimp only at hok
      cases hok
      rfl

theorem eraseP_pair_free {l : List Entry} {u cid : String}
    (hu : PairUnique l) (hp : hasPair l u cid = true) :
    ∀ e ∈ l.eraseP (fun e => e.user_id = u && e.content_id = cid),
      ¬(e.user_id = u ∧ e.content_id = cid) := by
  unfold hasPair at hp
  obtain ⟨a, ha, hpa⟩ := List.any_eq_true.mp hp
  obtain ⟨a', l₁, l₂, hl₁, hpa', hdecomp, herase⟩ :=
    List.exists_of_eraseP (p := fun e : Entry => e.user_id = u && e.content_id = cid) ha hpa
  intro e he hcontra
  have hpe : (fun e : Entry => e.user_id = u && e.content_id = cid) e = true := by
    simp [hcontra.1, hcontra.2]
  rw [herase] at he
  rcases List.mem_append.mp he with h1 | h2
  · exact absurd hpe (by simpa using hl₁ e h1)
  · have hu' := hu
    unfold PairUnique at hu'
    rw [hdecomp] at hu'
    have hR := (List.pairwise_cons.mp (List.pairwise_append.mp hu').2.1).1 e h2
    have ha'1 : a'.user_id = u := by
      have := hpa'
      simp at this
      exact this.1
    have ha'2 : a'.content_id = cid := by
      have := hpa'
      simp at this
      exact this.2
    exact hR ⟨by rw [ha'1, hcontra.1], by rw [ha'2, hcontra.2]⟩

/-- C3: a list issued immediately after a successful add or remove for the
same user (with a working invalidation sweep) reports `cacheHit = false`,
and its data reflects the mutation: after an add the canonical walk of the
new store equals the canonical sequence and contains an entry mapping to
the item the add returned; after a remove no entry of the user's canonical
sequence carries the removed `content_id`. -/
theorem mutation_invalidates_cache :
    (∀ (cat : Catalog) (st : MyListState) (u cid : String) (ct : ContentType)
        (now nid : Nat) (item : ListItemData) (st' : MyListState),
      MyListService.addToList cat st u cid ct now nid = .ok (item, st') →
      st.cache.invalidateFails = false →
      (∀ (t : PaginationType) (params : MyListService.GetListParams)
          (r : PaginatedListResult) (cb : CacheBackend),
        MyListService.getList st'.entries st'.cache u t params = .ok (r, cb) →
        r.cacheHit = false) ∧
      (∀ limit : Nat, 1 ≤ limit → (st'.entries.map Entry.entryId).Nodup →
        MyListService.cursorWalk st'.entries u limit = canonicalList st'.entries u ∧
        ∃ e ∈ canonicalList st'.entries u, MyListService.mapToListItemData e = item)) ∧
    (∀ (st : MyListState) (u cid : String) (st' : MyListState),
      MyListService.removeFromList st u cid = .ok st' →
      st.cache.invalidateFails = false →
      (∀ (t : PaginationType) (params : MyListService.GetListParams)
          (r : PaginatedListResult) (cb : CacheBackend),
        MyListService.getList st'.entries st'.cache u t params = .ok (r, cb) →
        r.cacheHit = false) ∧
      (PairUnique st.entries →
        ∀ e ∈ canonicalList st'.entries u, e.content_id ≠ cid)) := by
  constructor
  · intro cat st u cid ct now nid item st' hok hfail
    obtain ⟨hnp, c, hc, hitem, hst'⟩ := addToList_ok_inv hok
    constructor
    · intro t params r cb hg
      rw [hst'] at hg
      exact getList_after_invalidate hfail hg
    · intro limit hl hn
      refine ⟨cursorWalk_eq_canonical _ _ _ hl hn, ?_⟩
      refine ⟨newEntry u cid ct now nid c, ?_, hitem.symm⟩
      rw [(canonicalList_perm st'.entries u).mem_iff, List.mem_filter]
      constructor
      · rw [hst']
        exact List.mem_append_right _ (List.mem_singleton.mpr rfl)
      · simp [newEntry]
  · intro st u cid st' hok hfail
    obtain ⟨hp, hst'⟩ := removeFromList_ok_inv hok
    constructor
    · intro t params r cb hg
      rw [hst'] at hg
      exact getList_after_invalidate hfail hg
    · intro hpu e he
      have he' : e ∈ st'.entries.filter (fun e => e.user_id = u) :=
        (canonicalList_perm st'.entries u).mem_iff.mp he
      have heu : e.user_id = u := by
        have := (List.mem_filter.mp he').2
        simpa using this
      have hee : e ∈ st.entries.eraseP (fun e => e.user_id = u && e.content_id = cid) := by
        have := (List.mem_filter.mp he').1
        rw [hst'] at this
        exact this
      intro hcid
      exact eraseP_pair_free hpu hp e hee ⟨heu, hcid⟩

theorem mutation_invalidates_cache_witness :
    MyListService.cursorWalk
        [newEntry "u" "m1" .movie 100 1 ⟨"t", "d", ["Action"], 5, some "dir", ["a"]⟩] "u" 10 =
      canonicalList
        [newEntry "u" "m1" .movie 100 1 ⟨"t", "d", ["Action"], 5, some "dir", ["a"]⟩] "u" ∧
    ∃ e ∈ canonicalList
        [newEntry "u" "m1" .movie 100 1 ⟨"t", "d", ["Action"], 5, some "dir", ["a"]⟩] "u",
      MyListService.mapToListItemData e =
        MyListService.mapToListItemData
          (newEntry "u" "m1" .movie 100 1 ⟨"t", "d", ["Action"], 5, some "dir", ["a"]⟩) :=
  (mutation_invalidates_cache.1
    ⟨fun c => if c = "m1" then some ⟨"t", "d", ["Action"], 5, "dir", ["a"]⟩ else none,
      fun _ => none⟩
    ⟨[], ⟨[], false, false, false⟩⟩ "u" "m1" .movie 100 1
    (MyListService.mapToListItemData
      (newEntry "u" "m1" .movie 100 1 ⟨"t", "d", ["Action"], 5, some "dir", ["a"]⟩))
    ⟨[newEntry "u" "m1" .movie 100 1 ⟨"t", "d", ["Action"], 5, some "dir", ["a"]⟩],
      ⟨[], false, false, false⟩⟩
    (show MyListService.addToList
        ⟨fun c => if c = "m1" then some ⟨"t", "d", ["Action"], 5, "dir", ["a"]⟩ else none,
          fun _ => none⟩
        ⟨[], ⟨[], false, false, false⟩⟩ "u" "m1" .movie 100 1 =
      .ok (MyListService.mapToListItemData
          (newEntry "u" "m1" .movie 100 1 ⟨"t", "d", ["Action"], 5, some "dir", ["a"]⟩),
        ⟨[newEntry "u" "m1" .movie 100 1 ⟨"t", "d", ["Action"], 5, some "dir", ["a"]⟩],
          ⟨[], false, false, false⟩⟩) from rfl)
    rfl).2 10 (by decide) (by decide)

theorem countP_set_get {α : Type} (p : α → Bool) (b : α) :
    ∀ (l : List α) (i : Nat) (a : α), l.get? i = some a →
      (l.set i b).countP p + (if p a then 1 else 0) =
        l.countP p + (if p b then 1 else 0) := by
  intro l
  induction l with
  | nil => intro i a h; cases h
  | cons x xs ih =>
    intro i a h
    cases i with
    | zero =>
      cases h
      simp only [List.set_cons_zero, List.countP_cons]
      omega
    | succ j =>
      have h' : xs.get? j = some a := h
      have := ih j a h'
      simp only [List.set_cons_succ, List.countP_cons]
      omega

theorem countP_partition {α : Type} (p q : α → Bool) (l : List α)
    (hpq : ∀ t : α, ¬(p t = true ∧ q t = true))
    (h : ∀ t ∈ l, p t = true ∨ q t = true) :
    l.countP p + l.countP q = l.length := by
  induction l with
  | nil => rfl
  | cons x xs ih =>
    have hx := h x (List.mem_cons_self x xs)
    have hrest := ih (fun t ht => h t (List.mem_cons_of_mem x ht))
    simp only [List.countP_cons, List.length_cons]
    rcases hx with h1 | h2
    · have : ¬(q x = true) := fun hq => hpq x ⟨h1, hq⟩
      rw [if_pos h1, if_neg this]
      omega
    · have : ¬(p x = true) := fun hp => hpq x ⟨hp, h2⟩
      rw [if_pos h2, if_neg this]
      omega

theorem pairCount_pos_iff {l : List Entry} {u cid : String} :
    1 ≤ pairCount l u cid ↔ hasPair l u cid = true := by
  unfold pairCount hasPair
  rw [← List.countP_eq_length_filter, List.any_eq_true]
  constructor
  · intro h
    have h' : 0 < List.countP (fun e : Entry => e.user_id = u && e.content_id = cid) l := by
      omega
    obtain ⟨a, ha, hpa⟩ := List.countP_pos_iff.mp h'
    exact ⟨a, ha, hpa⟩
  · intro ⟨a, ha, hpa⟩
    have h' : 0 < List.countP (fun e : Entry => e.user_id = u && e.content_id = cid) l :=
      List.countP_pos_iff.mpr ⟨a, ha, hpa⟩
    omega

theorem pairCount_eq_zero {l : List Entry} {u cid : String}
    (h : hasPair l u cid = false) : pairCount l u cid = 0 := by
  by_contra hne
  have : 1 ≤ pairCount l u cid := by omega
  rw [pairCount_pos_iff.mp this] at h
  cases h

theorem pairCount_append_new (l : List Entry) (u cid : String) (ct : ContentType)
    (now nid : Nat) (c : ContentData) :
    pairCount (l ++ [newEntry u cid ct now nid c]) u cid = pairCount l u cid + 1 := by
  unfold pairCount
  rw [List.filter_append]
  simp [newEntry]

theorem resolveContent_ok_of_exists {cat : Catalog} {cid : String} {ct : ContentType}
    (hc : contentExists cat cid ct) (now : Nat) :
    ∃ c, resolveContent cat cid ct now = .ok c := by
  unfold contentExists at hc
  cases ct with
  | movie =>
    cases hm : cat.movies cid with
    | none => rw [hm] at hc; cases hc
    | some m =>
      have h' : resolveContent cat cid .movie now = .ok ⟨m.title, m.description, m.genres,
          m.releaseDate, some m.director, m.actors⟩ := by
        unfold resolveContent
        rw [hm]
      exact ⟨_, h'⟩
  | tvshow =>
    cases hm : cat.tvshows cid with
    | none => rw [hm] at hc; cases hc
    | some tv =>
      have h' : resolveContent cat cid .tvshow now = .ok ⟨tv.title, tv.description, tv.genres,
          (match tv.episodes.head? with
            | some ep => ep.releaseDate
            | none => now),
          tv.episodes.head?.map (fun ep => ep.director),
          dedupFirst ((tv.episodes.map (fun ep => ep.actors)).flatten)⟩ := by
        unfold resolveContent
        rw [hm]
      exact ⟨_, h'⟩


theorem concStep_inv {cat : Catalog} {u cid : String} {ct : ContentType}
    {s s' : ConcState} (hc : contentExists cat cid ct)
    (hstep : ConcStep cat u cid ct s s')
    (h1 : pairCount s.store u cid = s.tasks.countP isDoneOk)
    (h2 : s.tasks.countP isDoneOk ≤ 1)
    (h3 : ∀ t ∈ s.tasks, isDone t = true → isDoneOk t = true ∨ isDoneConflict t = true)
    (h4 : 1 ≤ s.tasks.countP isDoneConflict → 1 ≤ pairCount s.store u cid) :
    s'.tasks.length = s.tasks.length ∧
    pairCount s'.store u cid = s'.tasks.countP isDoneOk ∧
    s'.tasks.countP isDoneOk ≤ 1 ∧
    (∀ t ∈ s'.tasks, isDone t = true → isDoneOk t = true ∨ isDoneConflict t = true) ∧
    (1 ≤ s'.tasks.countP isDoneConflict → 1 ≤ pairCount s'.store u cid) := by
  cases hstep with
  | checkDup ht hdup =>
    have hcnt := countP_set_get isDoneOk (.done (.error (.conflict "ITEM_ALREADY_IN_LIST")))
      s.tasks _ _ ht
    simp [isDoneOk] at hcnt
    refine ⟨List.length_set _ _ _, ?_, ?_, ?_, ?_⟩
    · dsimp only
      omega
    · dsimp only
      omega
    · intro t htm hd
      rcases List.mem_or_eq_of_mem_set htm with hmem | heq
      · exact h3 t hmem hd
      · right; rw [heq]; rfl
    · intro _
      exact pairCount_pos_iff.mpr hdup
  | checkNotFound ht hdup hcerr =>
    obtain ⟨c, hcok⟩ := resolveContent_ok_of_exists hc _
    rw [hcok] at hcerr
    cases hcerr
  | @checkPass i now c ht hdup hcok =>
    have hok := countP_set_get isDoneOk (.checked c) s.tasks _ _ ht
    have hcf := countP_set_get isDoneConflict (.checked c) s.tasks _ _ ht
    simp [isDoneOk] at hok
    simp [isDoneConflict] at hcf
    refine ⟨List.length_set _ _ _, ?_, ?_, ?_, ?_⟩
    · dsimp only
      omega
    · dsimp only
      omega
    · intro t htm hd
      rcases List.mem_or_eq_of_mem_set htm with hmem | heq
      · exact h3 t hmem hd
      · rw [heq] at hd; cases hd
    · intro hge
      dsimp only at hge
      exact h4 (by omega)
  | createDup ht hdup =>
    have hcnt := countP_set_get isDoneOk (.done (.error (.conflict "ITEM_ALREADY_IN_LIST")))
      s.tasks _ _ ht
    simp [isDoneOk] at hcnt
    refine ⟨List.length_set _ _ _, ?_, ?_, ?_, ?_⟩
    · dsimp only
      omega
    · dsimp only
      omega
    · intro t htm hd
      rcases List.mem_or_eq_of_mem_set htm with hmem | heq
      · exact h3 t hmem hd
      · right; rw [heq]; rfl
    · intro _
      exact pairCount_pos_iff.mpr hdup
  | @createOk i now newId c ht hdup hfresh =>
    have hcnt := countP_set_get isDoneOk (.done (.ok newId)) s.tasks _ _ ht
    simp [isDoneOk] at hcnt
    have hz : pairCount s.store u cid = 0 := pairCount_eq_zero hdup
    refine ⟨List.length_set _ _ _, ?_, ?_, ?_, ?_⟩
    · dsimp only
      rw [pairCount_append_new]
      omega
    · dsimp only
      omega
    · intro t htm hd
      rcases List.mem_or_eq_of_mem_set htm with hmem | heq
      · exact h3 t hmem hd
      · left; rw [heq]; rfl
    · intro _
      dsimp only
      rw [pairCount_append_new]
      omega

theorem concRun_inv {cat : Catalog} {u cid : String} {ct : ContentType} {N : Nat}
    {store₀ : List Entry} {s : ConcState} (hc : contentExists cat cid ct)
    (h0 : hasPair store₀ u cid = false)
    (htr : Relation.ReflTransGen (ConcStep cat u cid ct) ⟨store₀, List.replicate N .start⟩ s) :
    s.tasks.length = N ∧
    pairCount s.store u cid = s.tasks.countP isDoneOk ∧
    s.tasks.countP isDoneOk ≤ 1 ∧
    (∀ t ∈ s.tasks, isDone t = true → isDoneOk t = true ∨ isDoneConflict t = true) ∧
    (1 ≤ s.tasks.countP isDoneConflict → 1 ≤ pairCount s.store u cid) := by
  induction htr with
  | refl =>
    have hz : List.countP isDoneOk (List.replicate N AddTaskPhase.start) = 0 :=
      List.countP_eq_zero.mpr (fun t ht => by
        rw [List.eq_of_mem_replicate ht]
        simp [isDoneOk])
    have hzc : List.countP isDoneConflict (List.replicate N AddTaskPhase.start) = 0 :=
      List.countP_eq_zero.mpr (fun t ht => by
        rw [List.eq_of_mem_replicate ht]
        simp [isDoneConflict])
    refine ⟨List.length_replicate _ _, ?_, ?_, ?_, ?_⟩
    · dsimp only
      rw [pairCount_eq_zero h0]
      omega
    · dsimp only
      omega
    · intro t ht hd
      rw [List.eq_of_mem_replicate ht] at hd
      cases hd
    · intro hge
      dsimp only at hge
      omega
  | tail hab hbc ih =>
    obtain ⟨ihl, ih1, ih2, ih3, ih4⟩ := ih
    obtain ⟨hl, h1', h2', h3', h4'⟩ := concStep_inv hc hbc ih1 ih2 ih3 ih4
    exact ⟨by omega, h1', h2', h3', h4'⟩

/-- C9: for every interleaving of N concurrent `addToList` calls with the
same `(userId, contentId)` against a store not yet holding the pair, once
all calls have finished exactly one reports success, the other N-1 report
the duplicate-add Conflict, and the store holds exactly one entry for the
pair: the unique compound index leaves no race-dependent partial state. -/
theorem concurrent_adds_unique_winner
    (cat : Catalog) (u cid : String) (ct : ContentType) (N : Nat)
    (store₀ : List Entry) (s : ConcState)
    (hc : contentExists cat cid ct)
    (h0 : hasPair store₀ u cid = false)
    (hN : 1 ≤ N)
    (htr : Relation.ReflTransGen (ConcStep cat u cid ct) ⟨store₀, List.replicate N .start⟩ s)
    (hdone : ∀ t ∈ s.tasks, isDone t = true) :
    s.tasks.countP isDoneOk = 1 ∧
    s.tasks.countP isDoneConflict = N - 1 ∧
    pairCount s.store u cid = 1 := by
  obtain ⟨hlen, hpc, hok1, hdc, hcf⟩ := concRun_inv hc h0 htr
  have hdisj : ∀ t : AddTaskPhase, ¬(isDoneOk t = true ∧ isDoneConflict t = true) := by
    intro t h
    obtain ⟨hA, hB⟩ := h
    cases t with
    | start => simp [isDoneOk] at hA
    | checked c => simp [isDoneOk] at hA
    | done r =>
      cases r with
      | ok v => simp [isDoneConflict] at hB
      | error e => simp [isDoneOk] at hA
  have hsum := countP_partition isDoneOk isDoneConflict s.tasks hdisj
    (fun t ht => hdc t ht (hdone t ht))
  rw [hlen] at hsum
  have hge1 : 1 ≤ s.tasks.countP isDoneOk := by
    by_contra hlt
    have h0' : s.tasks.countP isDoneOk = 0 := by omega
    have hpc0 : pairCount s.store u cid = 0 := by omega
    have hcf0 : s.tasks.countP isDoneConflict = 0 := by
      by_contra h2
      have := hcf (by omega)
      omega
    omega
  refine ⟨by omega, by omega, by omega⟩

theorem concurrent_adds_unique_winner_witness :
    List.countP isDoneOk
        [AddTaskPhase.done (.ok 7),
         AddTaskPhase.done (.error (.conflict "ITEM_ALREADY_IN_LIST"))] = 1 ∧
    List.countP isDoneConflict
        [AddTaskPhase.done (.ok 7),
         AddTaskPhase.done (.error (.conflict "ITEM_ALREADY_IN_LIST"))] = 2 - 1 ∧
    pairCount [newEntry "u" "m" .movie 0 7 ⟨"t", "d", ["g"], 5, some "dir", ["a"]⟩]
      "u" "m" = 1 :=
  concurrent_adds_unique_winner
    ⟨fun c => if c = "m" then some ⟨"t", "d", ["g"], 5, "dir", ["a"]⟩ else none,
      fun _ => none⟩
    "u" "m" .movie 2 []
    ⟨[newEntry "u" "m" .movie 0 7 ⟨"t", "d", ["g"], 5, some "dir", ["a"]⟩],
      [AddTaskPhase.done (.ok 7),
       AddTaskPhase.done (.error (.conflict "ITEM_ALREADY_IN_LIST"))]⟩
    rfl rfl (by decide)
    (Relation.ReflTransGen.head
      (@ConcStep.checkPass
        ⟨fun c => if c = "m" then some ⟨"t", "d", ["g"], 5, "dir", ["a"]⟩ else none,
          fun _ => none⟩
        "u" "m" .movie
        ⟨[], [AddTaskPhase.start, AddTaskPhase.start]⟩ 0 0
        ⟨"t", "d", ["g"], 5, some "dir", ["a"]⟩ rfl rfl rfl)
      (Relation.ReflTransGen.head
        (@ConcStep.checkPass
          ⟨fun c => if c = "m" then some ⟨"t", "d", ["g"], 5, "dir", ["a"]⟩ else none,
            fun _ => none⟩
          "u" "m" .movie
          ⟨[], [AddTaskPhase.checked ⟨"t", "d", ["g"], 5, some "dir", ["a"]⟩,
            AddTaskPhase.start]⟩ 1 0
          ⟨"t", "d", ["g"], 5, some "dir", ["a"]⟩ rfl rfl rfl)
        (Relation.ReflTransGen.head
          (@ConcStep.createOk
            ⟨fun c => if c = "m" then some ⟨"t", "d", ["g"], 5, "dir", ["a"]⟩ else none,
              fun _ => none⟩
            "u" "m" .movie
            ⟨[], [AddTaskPhase.checked ⟨"t", "d", ["g"], 5, some "dir", ["a"]⟩,
              AddTaskPhase.checked ⟨"t", "d", ["g"], 5, some "dir", ["a"]⟩]⟩ 0 0 7
            ⟨"t", "d", ["g"], 5, some "dir", ["a"]⟩ rfl rfl (fun e he => nomatch he))
          (Relation.ReflTransGen.head
            (@ConcStep.createDup
              ⟨fun c => if c = "m" then some ⟨"t", "d", ["g"], 5, "dir", ["a"]⟩ else none,
                fun _ => none⟩
              "u" "m" .movie
              ⟨[newEntry "u" "m" .movie 0 7 ⟨"t", "d", ["g"], 5, some "dir", ["a"]⟩],
                [AddTaskPhase.done (.ok 7),
                 AddTaskPhase.checked ⟨"t", "d", ["g"], 5, some "dir", ["a"]⟩]⟩ 1
              ⟨"t", "d", ["g"], 5, some "dir", ["a"]⟩ rfl rfl)
            Relation.ReflTransGen.refl))))
    (by intro t ht
        rcases List.mem_cons.mp ht with h | h
        · rw [h]; rfl
        · rcases List.mem_cons.mp h with h' | h'
          · rw [h']; rfl
          · cases h')

/-- Counterexample to C3 as stated: `invalidateUserCache` swallows every
transport error of its SCAN/DEL sweep, and `addToList` returns success
regardless; with the sweep failing, an immediately following `getList` for
the same user finds the user's stale cached page still present and serves
it with `cacheHit = true` -- an empty page that does not contain the entry
the successful add just created. -/
theorem mutation_invalidates_cache_counterexample :
    MyListService.addToList
      ⟨fun c => if c = "m1" then some ⟨"t", "d", ["g"], 5, "dir", ["a"]⟩ else none,
        fun _ => none⟩
      ⟨[], ⟨[("mylist:u:offset:page:1:limit:10",
              ⟨[], .offset ⟨1, 10, 0, 0, false, false⟩⟩)], false, false, true⟩⟩
      "u" "m1" .movie 100 1 =
      .ok (MyListService.mapToListItemData
          (newEntry "u" "m1" .movie 100 1 ⟨"t", "d", ["g"], 5, some "dir", ["a"]⟩),
        ⟨[newEntry "u" "m1" .movie 100 1 ⟨"t", "d", ["g"], 5, some "dir", ["a"]⟩],
          ⟨[("mylist:u:offset:page:1:limit:10",
              ⟨[], .offset ⟨1, 10, 0, 0, false, false⟩⟩)], false, false, true⟩⟩) ∧
    MyListService.getList
      [newEntry "u" "m1" .movie 100 1 ⟨"t", "d", ["g"], 5, some "dir", ["a"]⟩]
      ⟨[("mylist:u:offset:page:1:limit:10",
          ⟨[], .offset ⟨1, 10, 0, 0, false, false⟩⟩)], false, false, true⟩
      "u" .offset ⟨some 1, some 10, none⟩ =
      .ok (⟨[], .offset ⟨1, 10, 0, 0, false, false⟩, true⟩,
        ⟨[("mylist:u:offset:page:1:limit:10",
            ⟨[], .offset ⟨1, 10, 0, 0, false, false⟩⟩)], false, false, true⟩) :=
  ⟨rfl, rfl⟩
